import Mathlib

/-!
Shallow embedding of the git-gud LFS filter pipeline (pointer codec,
clean/smudge filters, content cache, filter-process protocol engine).

Modelling conventions:
* Byte streams are `List Char`, one char per byte (Latin-1 style); the
  Rust code operates on UTF-8 byte streams, and UTF-8-validity errors of
  `BufRead::lines` are not modelled (all inputs considered here are text).
* Machine integers are `Nat` with explicit `% 2^32` / `% 2^64` where the
  Rust code relies on fixed-width arithmetic.
* Filesystem/network effects are passed explicitly: the cache is an
  association list, the storage backend is an injected download function
  (the spec declares the concrete client out of scope).
-/

set_option maxRecDepth 100000

namespace GitGud

/-! ## SHA-256 (sha2 crate, as used by `Pointer::from_reader` / `from_bytes`) -/

/-- Truncate to 32 bits. -/
def w32 (x : Nat) : Nat := x % 4294967296

/-- Right rotation on 32-bit words. -/
def rotr32 (n x : Nat) : Nat := w32 ((x >>> n) ||| (x <<< (32 - n)))

/-- SHA-256 small sigma 0. -/
def sSig0 (x : Nat) : Nat := (rotr32 7 x) ^^^ (rotr32 18 x) ^^^ (x >>> 3)

/-- SHA-256 small sigma 1. -/
def sSig1 (x : Nat) : Nat := (rotr32 17 x) ^^^ (rotr32 19 x) ^^^ (x >>> 10)

/-- SHA-256 big sigma 0. -/
def bSig0 (x : Nat) : Nat := (rotr32 2 x) ^^^ (rotr32 13 x) ^^^ (rotr32 22 x)

/-- SHA-256 big sigma 1. -/
def bSig1 (x : Nat) : Nat := (rotr32 6 x) ^^^ (rotr32 11 x) ^^^ (rotr32 25 x)

/-- SHA-256 choice function. -/
def chF (x y z : Nat) : Nat := (x &&& y) ^^^ ((x ^^^ 4294967295) &&& z)

/-- SHA-256 majority function. -/
def majF (x y z : Nat) : Nat := (x &&& y) ^^^ (x &&& z) ^^^ (y &&& z)

/-- SHA-256 round constants. -/
def kConsts : List Nat :=
  [1116352408, 1899447441, 3049323471, 3921009573, 961987163,
   1508970993, 2453635748, 2870763221, 3624381080, 310598401,
   607225278, 1426881987, 1925078388, 2162078206, 2614888103,
   3248222580, 3835390401, 4022224774, 264347078, 604807628,
   770255983, 1249150122, 1555081692, 1996064986, 2554220882,
   2821834349, 2952996808, 3210313671, 3336571891, 3584528711,
   113926993, 338241895, 666307205, 773529912, 1294757372,
   1396182291, 1695183700, 1986661051, 2177026350, 2456956037,
   2730485921, 2820302411, 3259730800, 3345764771, 3516065817,
   3600352804, 4094571909, 275423344, 430227734, 506948616,
   659060556, 883997877, 958139571, 1322822218, 1537002063,
   1747873779, 1955562222, 2024104815, 2227730452, 2361852424,
   2428436474, 2756734187, 3204031479, 3329325298]

/-- SHA-256 initial hash state. -/
def h0Consts : List Nat :=
  [1779033703, 3144134277, 1013904242, 2773480762,
   1359893119, 2600822924, 528734635, 1541459225]

/-- Big-endian 4-byte groups to 32-bit words. -/
def bytesToWords : List Nat → List Nat
  | b0 :: b1 :: b2 :: b3 :: rest =>
      (b0 * 16777216 + b1 * 65536 + b2 * 256 + b3) :: bytesToWords rest
  | _ => []

/-- Extend the 16-word schedule by the given number of words; the
accumulator holds the schedule so far, newest word first. -/
def scheduleGo : Nat → List Nat → List Nat
  | 0, acc => acc
  | f + 1, acc =>
      let nw := w32 (acc.getD 15 0 + sSig0 (acc.getD 14 0) +
                     acc.getD 6 0 + sSig1 (acc.getD 1 0))
      scheduleGo f (nw :: acc)

/-- Full 64-word message schedule of one 64-byte block. -/
def schedule (block : List Nat) : List Nat :=
  (scheduleGo 48 (bytesToWords block).reverse).reverse

/-- One SHA-256 round. -/
def roundStep (st : Nat × Nat × Nat × Nat × Nat × Nat × Nat × Nat)
    (kw : Nat × Nat) : Nat × Nat × Nat × Nat × Nat × Nat × Nat × Nat :=
  let (a, b, c, d, e, f, g, h) := st
  let t1 := w32 (h + bSig1 e + chF e f g + kw.1 + kw.2)
  let t2 := w32 (bSig0 a + majF a b c)
  (w32 (t1 + t2), a, b, c, w32 (d + t1), e, f, g)

/-- SHA-256 compression of one 64-byte block into the running state. -/
def compress (h : List Nat) (block : List Nat) : List Nat :=
  let ws := schedule block
  let st0 := (h.getD 0 0, h.getD 1 0, h.getD 2 0, h.getD 3 0,
              h.getD 4 0, h.getD 5 0, h.getD 6 0, h.getD 7 0)
  let (a, b, c, d, e, f, g, hh) := (kConsts.zip ws).foldl roundStep st0
  [w32 (h.getD 0 0 + a), w32 (h.getD 1 0 + b), w32 (h.getD 2 0 + c),
   w32 (h.getD 3 0 + d), w32 (h.getD 4 0 + e), w32 (h.getD 5 0 + f),
   w32 (h.getD 6 0 + g), w32 (h.getD 7 0 + hh)]

/-- Split a byte list into full 64-byte blocks plus remainder (fuel-driven
so that it reduces definitionally; fuel is the list length). -/
def splitBlocksGo : Nat → List Nat → List (List Nat) × List Nat
  | 0, l => ([], l)
  | f + 1, l =>
      if 64 ≤ l.length then
        let r := splitBlocksGo f (l.drop 64)
        (l.take 64 :: r.1, r.2)
      else ([], l)

/-- Split a byte list into full 64-byte blocks plus a remainder of length
less than 64. -/
def splitBlocks (l : List Nat) : List (List Nat) × List Nat :=
  splitBlocksGo l.length l

/-- Streaming SHA-256 state: running hash, buffered partial block, total
byte count — mirrors the incremental `Sha256` hasher fed by
`Pointer::from_reader`. -/
structure Hasher where
  h : List Nat
  pending : List Nat
  len : Nat
  deriving Repr, DecidableEq

/-- Fresh hasher. -/
def initHasher : Hasher := ⟨h0Consts, [], 0⟩

/-- Feed one chunk into the streaming hasher (`hasher.update(chunk)`). -/
def hUpdate (st : Hasher) (chunk : List Nat) : Hasher :=
  let m := st.pending ++ chunk
  let sb := splitBlocks m
  ⟨sb.1.foldl compress st.h, sb.2, st.len + chunk.length⟩

/-- Big-endian 8-byte encoding of the 64-bit bit-length. -/
def lenBytes8 (v : Nat) : List Nat :=
  let t := v % 18446744073709551616
  [t >>> 56 % 256, t >>> 48 % 256, t >>> 40 % 256, t >>> 32 % 256,
   t >>> 24 % 256, t >>> 16 % 256, t >>> 8 % 256, t % 256]

/-- SHA-256 padding suffix for a message of the given total byte length. -/
def padSuffix (len : Nat) : List Nat :=
  128 :: List.replicate ((119 - len % 64) % 64) 0 ++ lenBytes8 (len * 8)

/-- Decompose 32-bit words into big-endian bytes. -/
def wordsToBytes : List Nat → List Nat
  | [] => []
  | w :: ws => (w >>> 24 % 256) :: (w >>> 16 % 256) :: (w >>> 8 % 256) ::
               (w % 256) :: wordsToBytes ws

/-- Finalize the streaming hasher into the 32-byte digest. -/
def hFinal (st : Hasher) : List Nat :=
  let padded := st.pending ++ padSuffix st.len
  wordsToBytes ((splitBlocks padded).1.foldl compress st.h)

/-- SHA-256 digest of a whole message. -/
def sha256 (msg : List Nat) : List Nat := hFinal (hUpdate initHasher msg)

/-- Lowercase hex digit of a nibble value. -/
def hexDigitChar : Nat → Char
  | 0 => '0' | 1 => '1' | 2 => '2' | 3 => '3' | 4 => '4'
  | 5 => '5' | 6 => '6' | 7 => '7' | 8 => '8' | 9 => '9'
  | 10 => 'a' | 11 => 'b' | 12 => 'c' | 13 => 'd' | 14 => 'e' | 15 => 'f'
  | _ => '0'

/-- Lowercase hex rendering, two digits per byte — the `{:x}` formatting of
a sha2 digest. -/
def toHexChars : List Nat → List Char
  | [] => []
  | b :: bs => hexDigitChar (b / 16) :: hexDigitChar (b % 16) :: toHexChars bs

/-! ## Pointer codec (`src/lfs/pointer.rs`) -/

/-- The fixed LFS version URL (`LFS_VERSION`). -/
def lfsVersion : List Char := "https://git-lfs.github.com/spec/v1".toList

/-- The pointer-size ceiling (`MAX_POINTER_SIZE`). -/
def maxPointerSize : Nat := 1024

/-- Errors of the pointer codec (`PointerError`); message payloads carry the
offending line or value instead of a formatted message. -/
inductive PointerError where
  | ioErr : PointerError
  | invalidFormat : List Char → PointerError
  | tooLarge : PointerError
  | missingField : List Char → PointerError
  | invalidOid : List Char → PointerError
  deriving Repr, DecidableEq

/-- An LFS pointer (`Pointer`): version URL, `sha256:<hex>` oid, byte size. -/
structure Pointer where
  version : List Char
  oid : List Char
  size : Nat
  deriving Repr, DecidableEq

/-- Recover a line from its reversed accumulator, stripping one CR that
stood just before the LF. -/
def stripCrRev : List Char → List Char
  | '\r' :: t => t.reverse
  | l => l.reverse

/-- Split a byte stream into lines the way `BufRead::lines` does: split at
LF, strip one CR before each LF, no trailing empty line; the accumulator
holds the current line reversed. -/
def rustLinesAux (acc : List Char) : List Char → List (List Char)
  | [] => if acc = [] then [] else [acc.reverse]
  | c :: rest =>
      if c = '\n' then stripCrRev acc :: rustLinesAux [] rest
      else rustLinesAux (c :: acc) rest

/-- Lines of a byte stream, as produced by `BufRead::lines`. -/
def rustLines (s : List Char) : List (List Char) := rustLinesAux [] s

/-- ASCII whitespace recognised by Rust `char::is_whitespace` (the non-ASCII
Unicode whitespace code points are not modelled). -/
def isWs (c : Char) : Bool :=
  c = ' ' || c = '\t' || c = '\n' || c = '\r' || c = '\x0B' || c = '\x0C'

/-- Rust `str::trim` on the byte-char representation. -/
def trimList (l : List Char) : List Char :=
  ((l.dropWhile isWs).reverse.dropWhile isWs).reverse

/-- Split a line at its first space, like `splitn(2, ' ')`; `none` means the
line has no space at all (`parts.len() != 2` in the source). -/
def splitKV : List Char → Option (List Char × List Char)
  | [] => none
  | c :: rest =>
      if c = ' ' then some ([], rest)
      else (splitKV rest).map (fun kv => (c :: kv.1, kv.2))

/-- Rust `char::is_ascii_hexdigit`: decimal digits and hex letters of either
case. -/
def isHexChar (c : Char) : Bool :=
  ('0' ≤ c && c ≤ '9') || ('a' ≤ c && c ≤ 'f') || ('A' ≤ c && c ≤ 'F')

/-- Check whether a list starts with the given pattern (`str::starts_with`). -/
def startsWithL : List Char → List Char → Bool
  | _, [] => true
  | [], _ :: _ => false
  | c :: cs, p :: ps => c = p && startsWithL cs ps

/-- The oid validation of `parse_content`: a `sha256:` scheme followed by
exactly 64 ASCII hex digits. -/
def validOid (value : List Char) : Bool :=
  startsWithL value "sha256:".toList &&
    (let hexPart := value.drop 7
     hexPart.length = 64 && hexPart.all isHexChar)

/-- Decimal value of a digit-char list. -/
def digitsVal (l : List Char) : Nat :=
  l.foldl (fun a c => a * 10 + (c.toNat - 48)) 0

/-- Rust `u64::from_str`: an optional leading plus sign, then one or more
decimal digits, rejecting values outside the `u64` range. -/
def parseU64 (l : List Char) : Option Nat :=
  let digits := if l.head? = some '+' then l.tail else l
  if digits ≠ [] && digits.all Char.isDigit then
    let n := digitsVal digits
    if n < 18446744073709551616 then some n else none
  else none

/-- The line-processing loop of `Pointer::parse_content`, folding the three
optional fields over the lines; unknown keys are ignored. -/
def parseFields : List (List Char) → Option (List Char) → Option (List Char) →
    Option Nat →
    Except PointerError (Option (List Char) × Option (List Char) × Option Nat)
  | [], v, o, s => .ok (v, o, s)
  | line :: rest, v, o, s =>
      let t := trimList line
      if t = [] then parseFields rest v o s
      else
        match splitKV t with
        | none => .error (.invalidFormat t)
        | some (k, value) =>
            if k = "version".toList then parseFields rest (some value) o s
            else if k = "oid".toList then
              if validOid value then parseFields rest v (some value) s
              else .error (.invalidOid value)
            else if k = "size".toList then
              match parseU64 value with
              | some n => parseFields rest v o (some n)
              | none => .error (.invalidFormat value)
            else parseFields rest v o s

/-- `Pointer::parse_content`: parse pointer text, then require the three
mandatory fields in the order version, oid, size. -/
def parseContent (content : List Char) : Except PointerError Pointer :=
  match parseFields (rustLines content) none none none with
  | .error e => .error e
  | .ok (v, o, s) =>
      match v with
      | none => .error (.missingField "version".toList)
      | some ver =>
          match o with
          | none => .error (.missingField "oid".toList)
          | some oid =>
              match s with
              | none => .error (.missingField "size".toList)
              | some size => .ok ⟨ver, oid, size⟩

/-- Fuel-driven decimal digits of a natural number (most significant first);
fuel-driven so that it reduces definitionally. -/
def natDigitsGo : Nat → Nat → List Char
  | 0, _ => []
  | f + 1, n =>
      if n < 10 then [hexDigitChar n]
      else natDigitsGo f (n / 10) ++ [hexDigitChar (n % 10)]

/-- Decimal rendering of a natural number, as Rust `Display` for `u64`. -/
def natDigits (n : Nat) : List Char := natDigitsGo (n + 1) n

/-- `Display for Pointer`: the canonical three-line serialization with a
trailing newline. -/
def Pointer.serialize (p : Pointer) : List Char :=
  "version ".toList ++ p.version ++ '\n' ::
    ("oid ".toList ++ p.oid ++ '\n' ::
      ("size ".toList ++ natDigits p.size ++ ['\n']))

/-- The oid text of a content: `format!("sha256:{:x}", hash)`. -/
def oidOfBytes (bytes : List Nat) : List Char :=
  "sha256:".toList ++ toHexChars (sha256 bytes)

/-- `Pointer::from_bytes` / the result of `Pointer::from_reader` on whole
content: fixed version, sha256 oid, byte length. -/
def Pointer.fromBytes (content : List Char) : Pointer :=
  ⟨lfsVersion, oidOfBytes (content.map Char.toNat), content.length⟩

/-- `Pointer::from_reader` fed a sequence of read chunks: the streaming
hasher is updated chunk by chunk and the sizes are accumulated; the second
component is what the optional cache sink receives (every byte mirrored). -/
def Pointer.fromReader (chunks : List (List Char)) : Pointer × List Char :=
  let st := (chunks.map (List.map Char.toNat)).foldl hUpdate initHasher
  (⟨lfsVersion, "sha256:".toList ++ toHexChars (hFinal st), st.len⟩,
   chunks.flatten)

/-- `Pointer::sha256`: the hex digest without the `sha256:` scheme. -/
def Pointer.sha256Hex (p : Pointer) : List Char :=
  if startsWithL p.oid "sha256:".toList then p.oid.drop 7 else p.oid

/-- `Pointer::parse`: reject files over the ceiling before parsing. -/
def parseFile (content : List Char) : Except PointerError Pointer :=
  if content.length > maxPointerSize then .error .tooLarge
  else parseContent content

/-! ## Content cache (`src/lfs/cache.rs`), modelled as an association list
from oid to stored content.  `none` models `Cache::new()` failing
(`CacheUnavailable`). -/

/-- Cache contents: oid to blob bytes. -/
abbrev CacheMap := List (List Char × List Char)

/-- An optional cache handle, as produced by `Cache::new().ok()`. -/
abbrev CacheSt := Option CacheMap

/-- `Cache::get`: path lookup by oid (modelled as content lookup). -/
def cacheGet (c : CacheSt) (oid : List Char) : Option (List Char) :=
  match c with
  | none => none
  | some m => (m.find? (fun kv => kv.1 = oid)).map (fun kv => kv.2)

/-- `Cache::put_file` / `Cache::put` best-effort insert: a no-op when the
cache is unavailable. -/
def cachePut (c : CacheSt) (oid : List Char) (content : List Char) : CacheSt :=
  match c with
  | none => none
  | some m => some ((oid, content) :: m)

/-! ## One-shot clean adapter (`src/commands/lfs/clean.rs`) -/

/-- Result of a one-shot filter invocation: bytes written to stdout, the
process exit code, the cache afterwards, and whether a temp file remains. -/
structure OneShotResult where
  out : List Char
  exit : Nat
  cacheAfter : CacheSt
  tempLeft : Bool
  deriving Repr, DecidableEq

/-- The bounded pointer probe shared by clean and smudge: the lookahead
header is the first `MAX_POINTER_SIZE + 1` bytes, and the probe succeeds
only if the whole content fits in `MAX_POINTER_SIZE` bytes (so the header
is the whole content) and parses as a pointer. -/
def pointerProbe (content : List Char) : Bool :=
  let header := content.take (maxPointerSize + 1)
  decide (header.length ≤ maxPointerSize) && (parseContent header).isOk

/-- `clean::run_inner`: pass an already-pointerized header through
unchanged, otherwise stream content through the hasher into a temp file,
move the temp file into the cache and print the pointer text.  Exit code 0
throughout (IO errors are not modelled). -/
def cleanOneShot (cache : CacheSt) (content : List Char) : OneShotResult :=
  let header := content.take (maxPointerSize + 1)
  if header.length ≤ maxPointerSize && (parseContent header).isOk then
    ⟨header, 0, cache, false⟩
  else
    let (p, tempBytes) := Pointer.fromReader [content]
    ⟨p.serialize, 0, cachePut cache p.sha256Hex tempBytes, false⟩

/-! ## One-shot smudge adapter (`src/commands/lfs/smudge.rs`) -/

/-- Environment of a one-shot smudge invocation: the `GG_LFS_SKIP_SMUDGE`
flag, the local cache, whether a repository with a working directory and an
LFS config are found, and the injected Storage Backend download (keyed by
oid, returning the bytes it would write to the temp file; `.error` covers
backend construction and download failures alike). -/
structure SmudgeEnv where
  skip : Bool
  cache : CacheSt
  repoFound : Bool
  hasWorkdir : Bool
  configOk : Bool
  download : List Char → Except Unit (List Char)

/-- `smudge::download_and_output`: cache hit streams cached bytes; a missing
repo, working directory or config degrades to the pointer text; a download
is re-hashed and compared against the declared oid — a mismatch deletes the
temp file and degrades to the pointer text with exit 0 (the error is caught
by the graceful-degradation arm), a match populates the cache, streams the
content and deletes the temp file. -/
def downloadAndOutput (env : SmudgeEnv) (p : Pointer) (pointerBytes : List Char) :
    OneShotResult :=
  let oid := p.sha256Hex
  match cacheGet env.cache oid with
  | some cached => ⟨cached, 0, env.cache, false⟩
  | none =>
      if !env.repoFound then ⟨pointerBytes, 0, env.cache, false⟩
      else if !env.hasWorkdir then ⟨pointerBytes, 0, env.cache, false⟩
      else if !env.configOk then ⟨pointerBytes, 0, env.cache, false⟩
      else
        match env.download oid with
        | .error _ => ⟨pointerBytes, 0, env.cache, false⟩
        | .ok d =>
            if oidOfBytes (d.map Char.toNat) ≠ p.oid then
              ⟨pointerBytes, 0, env.cache, false⟩
            else
              ⟨d, 0, cachePut env.cache oid d, false⟩

/-- `smudge::run_inner`: skip-smudge passes through; a header that fits the
ceiling and parses as a pointer goes to `download_and_output`; everything
else passes through unchanged with exit 0. -/
def smudgeOneShot (env : SmudgeEnv) (content : List Char) : OneShotResult :=
  if env.skip then ⟨content, 0, env.cache, false⟩
  else
    let header := content.take (maxPointerSize + 1)
    if header.length ≤ maxPointerSize then
      match parseContent header with
      | .ok p => downloadAndOutput env p header
      | .error _ => ⟨content, 0, env.cache, false⟩
    else ⟨content, 0, env.cache, false⟩

/-! ## Filter-process protocol engine (`src/commands/lfs/filter_process.rs`)

The pkt-line byte framing is abstracted to a token stream: `Tok.data`
carries one frame payload, `Tok.flush` is a flush packet, and `Tok.bad`
stands for a malformed frame header (invalid hex length or a length below
4), which `pkt_read` surfaces as a hard transport I/O error.  An exhausted
token list is EOF.  Frame payloads are byte-chars; the lossy UTF-8 decode
of metadata frames is the identity on the text considered here. -/

/-- Input tokens of the framed stream. -/
inductive Tok where
  | data : List Char → Tok
  | flush : Tok
  | bad : Tok
  deriving Repr, DecidableEq

/-- Output events written by the engine: one data frame (`pkt_write` /
`pkt_write_data`) or one flush packet (`pkt_flush`). -/
inductive Out where
  | frame : List Char → Out
  | flushPkt : Out
  deriving Repr, DecidableEq

/-- Maximum data payload per frame (`PKT_MAX_DATA`). -/
def pktMaxData : Nat := 65516

/-- Fuel-driven chunking of a byte list (Rust `slice::chunks`). -/
def chunksGo : Nat → List Char → List (List Char)
  | 0, _ => []
  | _, [] => []
  | f + 1, l => l.take pktMaxData :: chunksGo f (l.drop pktMaxData)

/-- `pkt_write_data`: chunk binary data into size-capped data frames; empty
data produces no frame.  `pkt_stream_file` produces the same frames for a
file with this content. -/
def pktWriteData (d : List Char) : List Out :=
  (chunksGo (d.length + 1) d).map Out.frame

/-- The `status=success` frame. -/
def statusSuccess : Out := .frame "status=success\n".toList

/-- The `status=error` frame. -/
def statusError : Out := .frame "status=error\n".toList

/-- The success response sequence shared by the handlers: status frame,
flush, data frames, flush, flush. -/
def successResponse (content : List Char) : List Out :=
  statusSuccess :: .flushPkt :: pktWriteData content ++ [.flushPkt, .flushPkt]

/-- `pkt_read_to_flush`, collecting data frames until a flush packet or EOF;
`none` stands for the transport error a malformed frame raises.  Returns the
collected bytes and the remaining token stream. -/
def pktReadToFlushR : List Tok → Option (List Char) × List Tok
  | [] => (some [], [])
  | .bad :: rest => (none, rest)
  | .flush :: rest => (some [], rest)
  | .data d :: rest =>
      let r := pktReadToFlushR rest
      (r.1.map (d ++ ·), r.2)

/-- The version-reading loop of the handshake: scan data frames for a
`version=2` declaration until the first flush (or EOF); a malformed frame is
a transport error. -/
def readVersions : List Tok → Bool → Except Unit (Bool × List Tok)
  | [], got => .ok (got, [])
  | .bad :: _, _ => .error ()
  | .flush :: rest, got => .ok (got, rest)
  | .data d :: rest, got =>
      readVersions rest (got || trimList d = "version=2".toList)

/-- The capability-reading loop of the handshake: collect the suffixes of
`capability=`-prefixed frames until the first flush (or EOF). -/
def readCaps : List Tok → List (List Char) → Except Unit (List (List Char) × List Tok)
  | [], acc => .ok (acc, [])
  | .bad :: _, _ => .error ()
  | .flush :: rest, acc => .ok (acc, rest)
  | .data d :: rest, acc =>
      let line := trimList d
      if startsWithL line "capability=".toList then
        readCaps rest (acc ++ [line.drop 11])
      else readCaps rest acc

/-- `filter_process::handshake`: require a `git-filter-client` identity
frame and a `version=2` declaration before the first flush; reply with
server identity, version and flush; then answer the client capabilities
with the supported subset of clean/smudge followed by a flush. -/
def handshake (inp : List Tok) : Except Unit (List Out × List Tok) :=
  match inp with
  | .data d :: rest =>
      if trimList d = "git-filter-client".toList then
        match readVersions rest false with
        | .error _ => .error ()
        | .ok (gotV2, rest2) =>
            if gotV2 then
              match readCaps rest2 [] with
              | .error _ => .error ()
              | .ok (caps, rest3) =>
                  .ok ([.frame "git-filter-server\n".toList,
                        .frame "version=2\n".toList, .flushPkt] ++
                       (if caps.contains "clean".toList then
                          [.frame "capability=clean\n".toList] else []) ++
                       (if caps.contains "smudge".toList then
                          [.frame "capability=smudge\n".toList] else []) ++
                       [.flushPkt],
                       rest3)
            else .error ()
      else .error ()
  | .bad :: _ => .error ()
  | _ => .error ()

/-- The metadata-reading loop of `run_inner`: read `command=`/`pathname=`
frames until a flush; EOF is a normal session end (`none`); a malformed
frame is a transport error. -/
def readMeta : List Tok → List Char → List Char →
    Except Unit (Option (List Char × List Char) × List Tok)
  | [], _, _ => .ok (none, [])
  | .bad :: _, _, _ => .error ()
  | .flush :: rest, cmd, path => .ok (some (cmd, path), rest)
  | .data d :: rest, cmd, path =>
      let line := trimList d
      if startsWithL line "command=".toList then readMeta rest (line.drop 8) path
      else if startsWithL line "pathname=".toList then readMeta rest cmd (line.drop 9)
      else readMeta rest cmd path

/-- What one dispatched request handler did: the tokens left unread, the
frames it wrote, and whether it returned `Ok`. -/
structure DispatchResult where
  rest : List Tok
  written : List Out
  ok : Bool

/-- How a session ends. -/
inductive EngineExit where
  | cleanExit : EngineExit
  | transportErr : EngineExit
  | fuelOut : EngineExit
  deriving Repr, DecidableEq

/-- The main loop of `filter_process::run_inner` (after the handshake),
parameterized by the dispatch of one request, with fuel standing in for the
unbounded `loop`: read metadata until flush (EOF or an empty command ends
the session cleanly, a malformed frame is fatal), dispatch, and on handler
failure write `status=error`, flush, flush, then continue with the next
request. -/
def runLoop (dispatch : List Char → List Tok → DispatchResult) :
    Nat → List Tok → List Out × EngineExit
  | 0, _ => ([], .fuelOut)
  | n + 1, inp =>
      match readMeta inp [] [] with
      | .error _ => ([], .transportErr)
      | .ok (none, _) => ([], .cleanExit)
      | .ok (some (cmd, _path), rest) =>
          if cmd = [] then ([], .cleanExit)
          else
            let r := dispatch cmd rest
            if r.ok then
              let cont := runLoop dispatch n r.rest
              (r.written ++ cont.1, cont.2)
            else
              let cont := runLoop dispatch n r.rest
              (r.written ++ [statusError, .flushPkt, .flushPkt] ++ cont.1,
               cont.2)

/-! ## Protocol request handlers -/

/-- Engine-wide resources built once at start (`run_inner` lines 239-252):
the cache handle, the optional storage backend, and the skip-smudge flag. -/
structure EngineEnv where
  cache : CacheSt
  storage : Option (List Char → Except Unit (List Char))
  skip : Bool

/-- `process_clean` on an already-read request payload: the pointer probe
passes the payload through (the `pkt_reader.done` check means the whole
payload fits in the header, i.e. is at most the ceiling); otherwise hash,
cache and answer with the pointer text.  Returns the frames written and the
cache afterwards. -/
def processClean (cache : CacheSt) (content : List Char) :
    List Out × CacheSt :=
  if content.length ≤ maxPointerSize && (parseContent content).isOk then
    (successResponse content, cache)
  else
    let (p, tempBytes) := Pointer.fromReader [content]
    (successResponse p.serialize, cachePut cache p.sha256Hex tempBytes)

/-- `process_smudge` on an already-read request payload: non-pointer content
passes through; a cache hit streams cached bytes; without a storage backend
the pointer text is passed through with a warning; a download failure or a
hash mismatch returns `Err` (surfaced by the loop as `status=error`), the
mismatch deleting the temp file first; a verified download is cached,
streamed and its temp file removed.  Returns the handler result (frames on
`Ok`), the cache afterwards and whether a temp file holding the download
remains. -/
def processSmudge (env : EngineEnv) (content : List Char) :
    Except Unit (List Out) × CacheSt × Bool :=
  match parseContent content with
  | .error _ => (.ok (successResponse content), env.cache, false)
  | .ok p =>
      let oid := p.sha256Hex
      match cacheGet env.cache oid with
      | some cached => (.ok (successResponse cached), env.cache, false)
      | none =>
          match env.storage with
          | none => (.ok (successResponse content), env.cache, false)
          | some dl =>
              match dl oid with
              | .error _ => (.error (), env.cache, false)
              | .ok d =>
                  if oidOfBytes (d.map Char.toNat) ≠ p.oid then
                    (.error (), env.cache, false)
                  else
                    (.ok (successResponse d), cachePut env.cache oid d, false)

/-- The dispatch of `run_inner` lines 278-291: `clean` and `smudge` call
their handlers on the payload read to the flush, `smudge` under skip-smudge
and unrecognized commands pass through byte-for-byte; a transport error
while reading the payload is an `Err` dispatch. -/
def engineDispatch (env : EngineEnv) (cmd : List Char) (toks : List Tok) :
    DispatchResult :=
  if cmd = "clean".toList then
    match pktReadToFlushR toks with
    | (none, r) => ⟨r, [], false⟩
    | (some content, r) => ⟨r, (processClean env.cache content).1, true⟩
  else if cmd = "smudge".toList && env.skip then
    match pktReadToFlushR toks with
    | (none, r) => ⟨r, [], false⟩
    | (some content, r) => ⟨r, successResponse content, true⟩
  else if cmd = "smudge".toList then
    match pktReadToFlushR toks with
    | (none, r) => ⟨r, [], false⟩
    | (some content, r) =>
        match (processSmudge env content).1 with
        | .ok written => ⟨r, written, true⟩
        | .error _ => ⟨r, [], false⟩
  else
    match pktReadToFlushR toks with
    | (none, r) => ⟨r, [], false⟩
    | (some content, r) => ⟨r, successResponse content, true⟩

/-! ## Filesystem traces of cache inserts (`Cache::put` / `Cache::put_file`)

To examine atomicity of cache inserts, the sequence of filesystem
operations each insert performs is modelled as a trace, with a small-step
semantics mapping paths to file contents.  `fs::rename` is included in the
operation alphabet so that absence of rename-into-place is expressible. -/

/-- Filesystem operations performed by the cache code. -/
inductive FsOp where
  | createDirAll : List Char → FsOp
  | createFile : List Char → FsOp
  | writeAll : List Char → List Char → FsOp
  | flushFile : List Char → FsOp
  | copyFile : List Char → List Char → FsOp
  | renameFile : List Char → List Char → FsOp
  deriving Repr, DecidableEq

/-- `Cache::object_path`: `<root>/<first two oid chars>/<oid>`. -/
def objectPath (root : List Char) (oid : List Char) : List Char :=
  root ++ '/' :: oid.take 2 ++ '/' :: oid

/-- The parent directory of an object path. -/
def objectParent (root : List Char) (oid : List Char) : List Char :=
  root ++ '/' :: oid.take 2

/-- The filesystem operations of `Cache::put`: ensure the parent directory,
`File::create` at the final path (truncating it to empty), `write_all` the
content, flush. -/
def putTrace (root oid content : List Char) : List FsOp :=
  [.createDirAll (objectParent root oid),
   .createFile (objectPath root oid),
   .writeAll (objectPath root oid) content,
   .flushFile (objectPath root oid)]

/-- The filesystem operations of `Cache::put_file`: ensure the parent
directory, then `fs::copy` straight onto the final path. -/
def putFileTrace (root oid source : List Char) : List FsOp :=
  [.createDirAll (objectParent root oid),
   .copyFile source (objectPath root oid)]

/-- Filesystem contents: association of paths to file bytes. -/
abbrev FsState := List (List Char × List Char)

/-- Read a path in the filesystem model. -/
def fsLookup (fs : FsState) (p : List Char) : Option (List Char) :=
  (fs.find? (fun kv => kv.1 = p)).map (fun kv => kv.2)

/-- Write (or overwrite) a path in the filesystem model. -/
def fsSet (fs : FsState) (p : List Char) (content : List Char) : FsState :=
  (p, content) :: fs

/-- One step of the filesystem semantics.  `createFile` truncates the file
to empty; `writeAll` replaces its content; `copyFile` copies the source
content (empty if absent); `renameFile` moves content between paths. -/
def fsStep (fs : FsState) : FsOp → FsState
  | .createDirAll _ => fs
  | .createFile p => fsSet fs p []
  | .writeAll p c => fsSet fs p c
  | .flushFile _ => fs
  | .copyFile src dst => fsSet fs dst ((fsLookup fs src).getD [])
  | .renameFile src dst => fsSet (fsSet fs src []).tail dst ((fsLookup fs src).getD [])

/-- Run a trace of filesystem operations. -/
def fsRun (fs : FsState) (ops : List FsOp) : FsState :=
  ops.foldl fsStep fs

/-- Whether an operation makes the given path visible by renaming a fully
written scratch file onto it — the rename-into-place idiom. -/
def isRenameInto (target : List Char) : FsOp → Bool
  | .renameFile _ dst => dst = target
  | _ => false

deriving instance DecidableEq for Except

/-! ## Concrete fixtures used to instantiate the theorems -/

/-- A 64-character hex digest of all `a`s (a well-formed cache key). -/
def hexA64 : List Char := List.replicate 64 'a'

/-- A well-formed oid built from `hexA64`. -/
def oidA64 : List Char := "sha256:".toList ++ hexA64

/-- A concrete pointer with `hexA64` as digest and size 5. -/
def pA : Pointer := ⟨lfsVersion, oidA64, 5⟩

/-- The canonical serialization of `pA`. -/
def ptextA : List Char :=
  "version ".toList ++ lfsVersion ++ '\n' ::
    ("oid ".toList ++ oidA64 ++ '\n' :: ("size ".toList ++ natDigits 5 ++ ['\n']))

/-- `ptextA` padded with blank lines to exactly the pointer ceiling. -/
def ptext1024 : List Char := ptextA ++ List.replicate (1024 - ptextA.length) '\n'

/-- A one-shot smudge environment whose backend serves content (the byte
`x`) that does not hash to `hexA64`. -/
def envMismatchOne : SmudgeEnv :=
  ⟨false, some [], true, true, true, fun _ => .ok ['x']⟩

/-- The corresponding protocol-engine environment. -/
def envMismatchEngine : EngineEnv :=
  ⟨some [], some (fun _ => .ok ['x']), false⟩

/-- A cache root path for the filesystem traces. -/
def cacheRootP : List Char := "/home/user/.cache/gg-lfs".toList

/-! ## Shape lemmas for the digest and its hex rendering -/

theorem compress_length (h b : List Nat) : (compress h b).length = 8 := rfl

theorem foldl_compress_length (bs : List (List Nat)) (h : List Nat)
    (hh : h.length = 8) : (bs.foldl compress h).length = 8 := by
  induction bs generalizing h with
  | nil => exact hh
  | cons b bs ih => exact ih _ (compress_length h b)

theorem wordsToBytes_length (ws : List Nat) :
    (wordsToBytes ws).length = 4 * ws.length := by
  induction ws with
  | nil => rfl
  | cons w ws ih => simp [wordsToBytes, ih]; ring

theorem sha256_length (msg : List Nat) : (sha256 msg).length = 32 := by
  have h8 : ((hUpdate initHasher msg).h).length = 8 := by
    simp only [hUpdate, initHasher]
    exact foldl_compress_length _ _ rfl
  simp only [sha256, hFinal]
  rw [wordsToBytes_length, foldl_compress_length _ _ h8]

theorem toHexChars_length (bs : List Nat) :
    (toHexChars bs).length = 2 * bs.length := by
  induction bs with
  | nil => rfl
  | cons b bs ih => simp [toHexChars, ih]; ring

theorem hexDigitChar_isHex (n : Nat) : isHexChar (hexDigitChar n) = true := by
  rcases Nat.lt_or_ge n 16 with h | h
  · interval_cases n <;> decide
  · obtain ⟨k, rfl⟩ : ∃ k, n = k + 16 := ⟨n - 16, by omega⟩
    rfl

theorem toHexChars_mem_isHex (bs : List Nat) :
    ∀ c ∈ toHexChars bs, isHexChar c = true := by
  induction bs with
  | nil => intro c hc; cases hc
  | cons b bs ih =>
      intro c hc
      simp only [toHexChars, List.mem_cons] at hc
      rcases hc with rfl | hc
      · exact hexDigitChar_isHex _
      rcases hc with rfl | hc
      · exact hexDigitChar_isHex _
      · exact ih c hc

/-! ## Character-class lemmas -/

theorem not_isWs_of_isHex {c : Char} (h : isHexChar c = true) :
    isWs c = false := by
  by_contra hw
  have hw' : isWs c = true := by
    cases hx : isWs c
    · exact absurd hx hw
    · rfl
  simp only [isWs, Bool.or_eq_true, decide_eq_true_eq] at hw'
  rcases hw' with ((((rfl | rfl) | rfl) | rfl) | rfl) | rfl <;>
    simp [isHexChar] at h

theorem ne_nl_of_isHex {c : Char} (h : isHexChar c = true) : c ≠ '\n' := by
  rintro rfl; simp [isHexChar] at h

theorem not_isWs_of_isDigit {c : Char} (h : c.isDigit = true) :
    isWs c = false := by
  by_contra hw
  have hw' : isWs c = true := by
    cases hx : isWs c
    · exact absurd hx hw
    · rfl
  simp only [isWs, Bool.or_eq_true, decide_eq_true_eq] at hw'
  rcases hw' with ((((rfl | rfl) | rfl) | rfl) | rfl) | rfl <;>
    simp [Char.isDigit] at h

theorem ne_nl_of_isDigit {c : Char} (h : c.isDigit = true) : c ≠ '\n' := by
  rintro rfl; simp [Char.isDigit] at h

/-! ## List utilities for the line-oriented parser -/

theorem startsWithL_append (p r : List Char) : startsWithL (p ++ r) p = true := by
  induction p with
  | nil => cases r <;> rfl
  | cons c cs ih => simp [startsWithL, ih]

theorem startsWithL_decomp {l p : List Char} (h : startsWithL l p = true) :
    l = p ++ l.drop p.length := by
  induction p generalizing l with
  | nil => simp
  | cons c cs ih =>
      cases l with
      | nil => simp [startsWithL] at h
      | cons d ds =>
          simp only [startsWithL, Bool.and_eq_true, decide_eq_true_eq] at h
          obtain ⟨rfl, h2⟩ := h
          simpa using ih h2

theorem splitKV_append (k v : List Char) (h : ' ' ∉ k) :
    splitKV (k ++ ' ' :: v) = some (k, v) := by
  induction k with
  | nil => simp [splitKV]
  | cons c cs ih =>
      have hc : c ≠ ' ' := fun hc => h (hc ▸ List.mem_cons_self c cs)
      have hcs : ' ' ∉ cs := fun hm => h (List.mem_cons_of_mem c hm)
      simp [splitKV, hc, ih hcs]

theorem stripCrRev_no_cr (m : List Char) (h : m.head? ≠ some '\r') :
    stripCrRev m = m.reverse := by
  cases m with
  | nil => rfl
  | cons c t =>
      unfold stripCrRev
      split
      · next heq =>
          rw [List.cons.injEq] at heq
          exact absurd (by rw [heq.1]; rfl) h
      · rfl

theorem rustLinesAux_line (l : List Char) (acc rest : List Char)
    (h : '\n' ∉ l) :
    rustLinesAux acc (l ++ '\n' :: rest) =
      stripCrRev (l.reverse ++ acc) :: rustLinesAux [] rest := by
  induction l generalizing acc with
  | nil => simp [rustLinesAux]
  | cons c cs ih =>
      have hc : c ≠ '\n' := fun hc => h (hc ▸ List.mem_cons_self c cs)
      have hcs : '\n' ∉ cs := fun hm => h (List.mem_cons_of_mem c hm)
      simp only [List.cons_append, rustLinesAux, if_neg hc,
        List.reverse_cons, List.append_assoc, List.singleton_append]
      exact ih (c :: acc) hcs

theorem rustLines_cons (l rest : List Char) (h : '\n' ∉ l)
    (hcr : l.getLast? ≠ some '\r') :
    rustLines (l ++ '\n' :: rest) = l :: rustLines rest := by
  unfold rustLines
  rw [rustLinesAux_line l [] rest h, List.append_nil,
    stripCrRev_no_cr _ (by rwa [List.head?_reverse]), List.reverse_reverse]

theorem rustLines_nil : rustLines [] = [] := rfl

/-! ## Trim lemmas -/

theorem dropWhile_isWs_eq_self {l : List Char}
    (h : ∀ c, l.head? = some c → isWs c = false) : l.dropWhile isWs = l := by
  cases l with
  | nil => rfl
  | cons c t => simp [List.dropWhile_cons, h c rfl]

theorem trimList_eq_self (l : List Char)
    (h1 : ∀ c, l.head? = some c → isWs c = false)
    (h2 : ∀ c, l.getLast? = some c → isWs c = false) : trimList l = l := by
  unfold trimList
  rw [dropWhile_isWs_eq_self h1]
  rw [dropWhile_isWs_eq_self (fun c hc => h2 c (by rwa [List.head?_reverse] at hc))]
  exact List.reverse_reverse l

theorem trimList_self_getLast {l : List Char} (h : trimList l = l) :
    ∀ c, l.getLast? = some c → isWs c = false := by
  intro c hc
  unfold trimList at h
  have hlen1 : ((l.dropWhile isWs).reverse.dropWhile isWs).length ≤
      (l.dropWhile isWs).length := by
    calc ((l.dropWhile isWs).reverse.dropWhile isWs).length
        ≤ (l.dropWhile isWs).reverse.length :=
          (List.dropWhile_sublist _).length_le
      _ = (l.dropWhile isWs).length := List.length_reverse _
  have hlen2 : (l.dropWhile isWs).length ≤ l.length :=
    (List.dropWhile_sublist _).length_le
  have hlen : l.length = ((l.dropWhile isWs).reverse.dropWhile isWs).length := by
    conv_lhs => rw [← h]
    simp
  have heq1 : (l.dropWhile isWs) = l :=
    (List.dropWhile_sublist isWs (l := l)).eq_of_length (by omega)
  rw [heq1] at h
  have heq2 : l.reverse.dropWhile isWs = l.reverse := by
    have := congrArg List.reverse h
    rwa [List.reverse_reverse] at this
  cases hr : l.reverse with
  | nil => rw [← List.head?_reverse, hr] at hc; cases hc
  | cons d t =>
      rw [← List.head?_reverse, hr] at hc
      cases hc
      rw [hr, List.dropWhile_cons] at heq2
      by_contra hw
      have hw' : isWs c = true := by
        cases hx : isWs c
        · exact absurd hx hw
        · rfl
      rw [hw'] at heq2
      simp only [if_true] at heq2
      have hlen3 : (t.dropWhile isWs).length ≤ t.length :=
        (List.dropWhile_sublist _).length_le
      rw [heq2] at hlen3
      simp at hlen3

/-! ## Decimal rendering lemmas -/

theorem natDigitsGo_fuel (f g n : Nat) (hf : n < f) (hg : n < g) :
    natDigitsGo f n = natDigitsGo g n := by
  induction n using Nat.strong_induction_on generalizing f g with
  | _ n ih =>
      match f, g with
      | f + 1, g + 1 =>
          by_cases h10 : n < 10
          · simp [natDigitsGo, h10]
          · have hd : n / 10 < n := Nat.div_lt_self (by omega) (by omega)
            simp only [natDigitsGo, if_neg h10]
            rw [ih (n / 10) hd f g (by omega) (by omega)]

theorem natDigits_eq (n : Nat) :
    natDigits n = if n < 10 then [hexDigitChar n]
      else natDigits (n / 10) ++ [hexDigitChar (n % 10)] := by
  by_cases h10 : n < 10
  · simp [natDigits, natDigitsGo, h10]
  · have hd : n / 10 < n := Nat.div_lt_self (by omega) (by omega)
    rw [if_neg h10]
    show natDigitsGo (n + 1) n = _
    simp only [natDigitsGo, if_neg h10]
    unfold natDigits
    rw [natDigitsGo_fuel n (n / 10 + 1) (n / 10) hd (Nat.lt_succ_self _)]

theorem natDigits_mem (n : Nat) :
    ∀ c ∈ natDigits n, ∃ k, k < 10 ∧ c = hexDigitChar k := by
  induction n using Nat.strong_induction_on with
  | _ n ih =>
      intro c hc
      rw [natDigits_eq] at hc
      by_cases h10 : n < 10
      · rw [if_pos h10] at hc
        simp only [List.mem_singleton] at hc
        exact ⟨n, h10, hc⟩
      · rw [if_neg h10] at hc
        have hd : n / 10 < n := Nat.div_lt_self (by omega) (by omega)
        rcases List.mem_append.mp hc with hm | hm
        · exact ih _ hd c hm
        · simp only [List.mem_singleton] at hm
          exact ⟨n % 10, Nat.mod_lt _ (by omega), hm⟩

theorem natDigits_ne_nil (n : Nat) : natDigits n ≠ [] := by
  rw [natDigits_eq]
  by_cases h10 : n < 10 <;> simp [h10]

theorem natDigits_isDigit (n : Nat) :
    ∀ c ∈ natDigits n, c.isDigit = true := by
  intro c hc
  obtain ⟨k, hk, rfl⟩ := natDigits_mem n c hc
  interval_cases k <;> decide

theorem digitsVal_append_digit (a : List Char) (c : Char) :
    digitsVal (a ++ [c]) = digitsVal a * 10 + (c.toNat - 48) := by
  unfold digitsVal
  rw [List.foldl_append]
  rfl

theorem hexDigitChar_toNat (k : Nat) (hk : k < 10) :
    (hexDigitChar k).toNat - 48 = k := by
  interval_cases k <;> decide

theorem digitsVal_natDigits (n : Nat) : digitsVal (natDigits n) = n := by
  induction n using Nat.strong_induction_on with
  | _ n ih =>
      rw [natDigits_eq]
      by_cases h10 : n < 10
      · rw [if_pos h10]
        interval_cases n <;> decide
      · have hd : n / 10 < n := Nat.div_lt_self (by omega) (by omega)
        rw [if_neg h10, digitsVal_append_digit, ih _ hd,
          hexDigitChar_toNat _ (Nat.mod_lt _ (by omega))]
        omega

theorem natDigits_head_ne_plus (n : Nat) : (natDigits n).head? ≠ some '+' := by
  intro hc
  have hm : '+' ∈ natDigits n := by
    cases he : natDigits n with
    | nil => rw [he] at hc; cases hc
    | cons d t =>
        rw [he] at hc
        simp only [List.head?_cons, Option.some.injEq] at hc
        subst hc
        exact List.mem_cons_self _ _
  obtain ⟨k, hk, hke⟩ := natDigits_mem n '+' hm
  interval_cases k <;> exact absurd hke (by decide)

theorem parseU64_natDigits (n : Nat) (hn : n < 18446744073709551616) :
    parseU64 (natDigits n) = some n := by
  unfold parseU64
  rw [if_neg (natDigits_head_ne_plus n)]
  have hall : (natDigits n).all Char.isDigit = true :=
    List.all_eq_true.mpr (fun c hc => natDigits_isDigit n c hc)
  rw [if_pos]
  · rw [digitsVal_natDigits, if_pos hn]
  · simp [natDigits_ne_nil n, hall]

/-! ## Valid-oid shape lemmas -/

theorem mem_of_getLastSome {l : List Char} {c : Char}
    (h : l.getLast? = some c) : c ∈ l := by
  have hm : c ∈ l.getLast? := by rw [h]; rfl
  obtain ⟨hne, rfl⟩ := List.mem_getLast?_eq_getLast hm
  exact List.getLast_mem hne

theorem validOid_shape {o : List Char} (h : validOid o = true) :
    o = "sha256:".toList ++ o.drop 7 ∧ (o.drop 7).length = 64 ∧
      ∀ c ∈ o.drop 7, isHexChar c = true := by
  unfold validOid at h
  simp only [Bool.and_eq_true, decide_eq_true_eq] at h
  obtain ⟨h1, h2, h3⟩ := h
  refine ⟨?_, h2, fun c hc => (List.all_eq_true.mp h3) c hc⟩
  have := startsWithL_decomp h1
  simpa using this

theorem validOid_no_nl {o : List Char} (h : validOid o = true) : '\n' ∉ o := by
  obtain ⟨hsh, hlen, hhex⟩ := validOid_shape h
  intro hm
  rw [hsh] at hm
  rcases List.mem_append.mp hm with hm | hm
  · simp at hm
  · exact absurd rfl (ne_nl_of_isHex (hhex _ hm)).symm

theorem validOid_getLast_not_ws {o : List Char} (h : validOid o = true) :
    ∀ c, o.getLast? = some c → isWs c = false := by
  obtain ⟨hsh, hlen, hhex⟩ := validOid_shape h
  intro c hc
  have hne : o.drop 7 ≠ [] := by
    intro hnil
    rw [hnil] at hlen
    simp at hlen
  rw [hsh, List.getLast?_append_of_ne_nil _ hne] at hc
  exact not_isWs_of_isHex (hhex _ (mem_of_getLastSome hc))

theorem validOid_ne_nil {o : List Char} (h : validOid o = true) : o ≠ [] := by
  obtain ⟨hsh, hlen, _⟩ := validOid_shape h
  intro hnil
  rw [hnil] at hsh
  exact absurd hsh.symm (by simp)

/-! ## Parsing canonical three-line pointer text -/

theorem parseContent_three (v o : List Char) (n : Nat)
    (hv1 : v ≠ []) (hv2 : '\n' ∉ v) (hv3 : trimList v = v)
    (ho : validOid o = true) (hn : n < 18446744073709551616) :
    parseContent ("version ".toList ++ v ++ '\n' ::
      ("oid ".toList ++ o ++ '\n' ::
        ("size ".toList ++ natDigits n ++ ['\n']))) =
    .ok ⟨v, o, n⟩ := by
  have hvLast : ∀ c, v.getLast? = some c → isWs c = false :=
    trimList_self_getLast hv3
  -- decompose the input into its three lines
  have hline1 : "version ".toList ++ v ++ '\n' ::
      ("oid ".toList ++ o ++ '\n' ::
        ("size ".toList ++ natDigits n ++ ['\n'])) =
      ("version ".toList ++ v) ++ '\n' ::
      (("oid ".toList ++ o) ++ '\n' ::
        (("size ".toList ++ natDigits n) ++ '\n' :: ([] : List Char))) := by
    simp [List.append_assoc]
  rw [hline1]
  have hnl1 : '\n' ∉ "version ".toList ++ v := by
    intro hm
    rcases List.mem_append.mp hm with hm | hm
    · simp at hm
    · exact hv2 hm
  have hcr1 : ("version ".toList ++ v).getLast? ≠ some '\r' := by
    rw [List.getLast?_append_of_ne_nil _ hv1]
    intro hc
    exact absurd (hvLast _ hc) (by decide)
  have hnl2 : '\n' ∉ "oid ".toList ++ o := by
    intro hm
    rcases List.mem_append.mp hm with hm | hm
    · simp at hm
    · exact validOid_no_nl ho hm
  have hcr2 : ("oid ".toList ++ o).getLast? ≠ some '\r' := by
    rw [List.getLast?_append_of_ne_nil _ (validOid_ne_nil ho)]
    intro hc
    exact absurd (validOid_getLast_not_ws ho _ hc) (by decide)
  have hnl3 : '\n' ∉ "size ".toList ++ natDigits n := by
    intro hm
    rcases List.mem_append.mp hm with hm | hm
    · simp at hm
    · exact absurd rfl (ne_nl_of_isDigit (natDigits_isDigit n _ hm)).symm
  have hcr3 : ("size ".toList ++ natDigits n).getLast? ≠ some '\r' := by
    rw [List.getLast?_append_of_ne_nil _ (natDigits_ne_nil n)]
    intro hc
    exact absurd (not_isWs_of_isDigit
      (natDigits_isDigit n _ (mem_of_getLastSome hc))) (by decide)
  have hlines : rustLines (("version ".toList ++ v) ++ '\n' ::
      (("oid ".toList ++ o) ++ '\n' ::
        (("size ".toList ++ natDigits n) ++ '\n' :: ([] : List Char)))) =
      ["version ".toList ++ v, "oid ".toList ++ o,
       "size ".toList ++ natDigits n] := by
    rw [rustLines_cons _ _ hnl1 hcr1, rustLines_cons _ _ hnl2 hcr2,
      rustLines_cons _ _ hnl3 hcr3, rustLines_nil]
  -- trim is the identity on each line
  have htrim1 : trimList ("version ".toList ++ v) = "version ".toList ++ v := by
    apply trimList_eq_self
    · intro c hc
      cases hc
      decide
    · intro c hc
      rw [List.getLast?_append_of_ne_nil _ hv1] at hc
      exact hvLast _ hc
  have htrim2 : trimList ("oid ".toList ++ o) = "oid ".toList ++ o := by
    apply trimList_eq_self
    · intro c hc
      cases hc
      decide
    · intro c hc
      rw [List.getLast?_append_of_ne_nil _ (validOid_ne_nil ho)] at hc
      exact validOid_getLast_not_ws ho _ hc
  have htrim3 : trimList ("size ".toList ++ natDigits n) =
      "size ".toList ++ natDigits n := by
    apply trimList_eq_self
    · intro c hc
      cases hc
      decide
    · intro c hc
      rw [List.getLast?_append_of_ne_nil _ (natDigits_ne_nil n)] at hc
      exact not_isWs_of_isDigit (natDigits_isDigit n _ (mem_of_getLastSome hc))
  have hsplit1 : splitKV ("version ".toList ++ v) = some ("version".toList, v) :=
    splitKV_append "version".toList v (by decide)
  have hsplit2 : splitKV ("oid ".toList ++ o) = some ("oid".toList, o) :=
    splitKV_append "oid".toList o (by decide)
  have hsplit3 : splitKV ("size ".toList ++ natDigits n) =
      some ("size".toList, natDigits n) :=
    splitKV_append "size".toList (natDigits n) (by decide)
  unfold parseContent
  rw [hlines]
  simp only [parseFields, htrim1, htrim2, htrim3, hsplit1, hsplit2, hsplit3]
  have hne1 : ("version ".toList ++ v) ≠ [] := by simp
  have hne2 : ("oid ".toList ++ o) ≠ [] := by simp
  have hne3 : ("size ".toList ++ natDigits n) ≠ [] := by simp
  simp [hne1, hne2, hne3, ho, parseU64_natDigits n hn]

/-! ## Streaming hasher lemmas: chunking invariance of `from_reader` -/

theorem splitBlocksGo_small {l : List Nat} (h : l.length < 64) :
    ∀ f, splitBlocksGo f l = ([], l) := by
  intro f
  cases f with
  | zero => rfl
  | succ f => simp [splitBlocksGo, Nat.not_le.mpr h]

theorem splitBlocksGo_fuel (f : Nat) : ∀ (g : Nat) (l : List Nat),
    l.length ≤ f → l.length ≤ g → splitBlocksGo f l = splitBlocksGo g l := by
  induction f with
  | zero =>
      intro g l hf hg
      have : l.length < 64 := by omega
      rw [splitBlocksGo_small this, splitBlocksGo_small this]
  | succ f ih =>
      intro g l hf hg
      by_cases h64 : 64 ≤ l.length
      · match g, hg with
        | 0, hg => omega
        | g + 1, hg =>
            simp only [splitBlocksGo, if_pos h64]
            rw [ih g (l.drop 64) (by simp; omega) (by simp; omega)]
      · have : l.length < 64 := by omega
        rw [splitBlocksGo_small this, splitBlocksGo_small this]

theorem splitBlocks_eq (l : List Nat) :
    splitBlocks l = if 64 ≤ l.length then
      ((l.take 64) :: (splitBlocks (l.drop 64)).1, (splitBlocks (l.drop 64)).2)
    else ([], l) := by
  by_cases h64 : 64 ≤ l.length
  · rw [if_pos h64]
    unfold splitBlocks
    rw [splitBlocksGo_fuel l.length (l.length + 1) l le_rfl (by omega)]
    simp only [splitBlocksGo, if_pos h64]
    rw [splitBlocksGo_fuel l.length (l.drop 64).length (l.drop 64)
      (by simp) le_rfl]
  · rw [if_neg h64]
    exact splitBlocksGo_small (by omega) _

theorem splitBlocks_rem_length (l : List Nat) :
    (splitBlocks l).2.length < 64 := by
  generalize hn : l.length = n
  induction n using Nat.strong_induction_on generalizing l with
  | _ n ih =>
      subst hn
      rw [splitBlocks_eq]
      by_cases h64 : 64 ≤ l.length
      · rw [if_pos h64]
        exact ih (l.drop 64).length (by simp; omega) _ rfl
      · rw [if_neg h64]
        simp
        omega

theorem splitBlocks_append (a b : List Nat) :
    splitBlocks (a ++ b) =
      ((splitBlocks a).1 ++ (splitBlocks ((splitBlocks a).2 ++ b)).1,
       (splitBlocks ((splitBlocks a).2 ++ b)).2) := by
  generalize hn : a.length = n
  induction n using Nat.strong_induction_on generalizing a with
  | _ n ih =>
      subst hn
      by_cases h64 : 64 ≤ a.length
      · have hab : 64 ≤ (a ++ b).length := by simp; omega
        rw [splitBlocks_eq (a ++ b), if_pos hab,
          List.take_append_of_le_length h64,
          List.drop_append_of_le_length h64]
        conv_rhs => rw [splitBlocks_eq a, if_pos h64]
        rw [ih (a.drop 64).length (by simp; omega) _ rfl]
        simp [List.cons_append]
      · conv_rhs => rw [splitBlocks_eq a, if_neg h64]
        simp

theorem hUpdate_append (s : Hasher) (a b : List Nat) :
    hUpdate (hUpdate s a) b = hUpdate s (a ++ b) := by
  simp only [hUpdate]
  rw [← List.append_assoc]
  rw [splitBlocks_append (s.pending ++ a) b]
  simp [List.foldl_append, Nat.add_assoc]

theorem splitBlocks_small_self {l : List Nat} (h : l.length < 64) :
    splitBlocks l = ([], l) := by
  rw [splitBlocks_eq, if_neg (by omega)]

theorem hUpdate_nil (s : Hasher) (hp : s.pending.length < 64) :
    hUpdate s [] = s := by
  cases s with
  | mk h p l =>
      simp only [hUpdate, List.append_nil]
      rw [splitBlocks_small_self hp]
      simp

theorem foldl_hUpdate_flatten (chunks : List (List Nat)) (s : Hasher)
    (hp : s.pending.length < 64) :
    chunks.foldl hUpdate s = hUpdate s chunks.flatten := by
  induction chunks generalizing s with
  | nil => rw [List.flatten_nil, List.foldl_nil, hUpdate_nil s hp]
  | cons c cs ih =>
      rw [List.foldl_cons, List.flatten_cons]
      rw [ih (hUpdate s c) (by simp only [hUpdate]; exact splitBlocks_rem_length _)]
      rw [hUpdate_append]

theorem fromReader_eq_fromBytes (chunks : List (List Char)) :
    Pointer.fromReader chunks = (Pointer.fromBytes chunks.flatten,
      chunks.flatten) := by
  simp only [Pointer.fromReader, Pointer.fromBytes, oidOfBytes, sha256]
  rw [foldl_hUpdate_flatten _ _ (by simp [initHasher])]
  rw [List.map_flatten]
  have hlen : (hUpdate initHasher ((chunks.map (List.map Char.toNat)).flatten)).len =
      chunks.flatten.length := by
    simp only [hUpdate, initHasher, List.length_append, List.length_flatten,
      List.map_map, Nat.zero_add]
    simp [Function.comp_def]
  rw [hlen]

/-! ## The oid produced by encode is always valid -/

theorem drop7_sha256Scheme (r : List Char) :
    ("sha256:".toList ++ r).drop 7 = r := rfl

theorem oidOfBytes_validOid (bytes : List Nat) :
    validOid (oidOfBytes bytes) = true := by
  unfold validOid oidOfBytes
  rw [drop7_sha256Scheme]
  simp only [Bool.and_eq_true, decide_eq_true_eq]
  refine ⟨startsWithL_append _ _, ?_, List.all_eq_true.mpr (toHexChars_mem_isHex _)⟩
  rw [toHexChars_length, sha256_length]

theorem fromBytes_sha256Hex (content : List Char) :
    (Pointer.fromBytes content).sha256Hex =
      toHexChars (sha256 (content.map Char.toNat)) := by
  unfold Pointer.sha256Hex Pointer.fromBytes oidOfBytes
  rw [if_pos (startsWithL_append _ _), drop7_sha256Scheme]

theorem parse_serialize_fromBytes (B : List Char)
    (hn : B.length < 18446744073709551616) :
    parseContent ((Pointer.fromBytes B).serialize) = .ok (Pointer.fromBytes B) := by
  have h := parseContent_three lfsVersion (oidOfBytes (B.map Char.toNat))
    B.length (by decide) (by decide) (by decide)
    (oidOfBytes_validOid _) hn
  exact h

/-! ## Single-line stepping lemmas for the field-collection loop -/

theorem trimList_keyLine (k : List Char) (v : List Char) (hk : k ≠ [])
    (hkh : ∀ c, k.head? = some c → isWs c = false)
    (hv1 : v ≠ []) (hvl : ∀ c, v.getLast? = some c → isWs c = false) :
    trimList (k ++ v) = k ++ v := by
  apply trimList_eq_self
  · intro c hc
    cases k with
    | nil => exact absurd rfl hk
    | cons a t =>
        simp only [List.cons_append, List.head?_cons, Option.some.injEq] at hc
        subst hc
        exact hkh _ rfl
  · intro c hc
    rw [List.getLast?_append_of_ne_nil _ hv1] at hc
    exact hvl _ hc

theorem parseFields_version_step (v : List Char) (rest : List (List Char))
    (hv1 : v ≠ []) (hv3 : trimList v = v)
    (vv oo : Option (List Char)) (ss : Option Nat) :
    parseFields (("version ".toList ++ v) :: rest) vv oo ss =
      parseFields rest (some v) oo ss := by
  have ht : trimList ("version ".toList ++ v) = "version ".toList ++ v :=
    trimList_keyLine _ _ (by decide) (by intro c hc; cases hc; decide) hv1
      (trimList_self_getLast hv3)
  have hs : splitKV ("version ".toList ++ v) = some ("version".toList, v) :=
    splitKV_append "version".toList v (by decide)
  simp only [parseFields, ht, hs]
  rw [if_neg (by simp)]
  rw [if_pos trivial]

theorem parseFields_oid_step (o : List Char) (rest : List (List Char))
    (ho : validOid o = true)
    (vv oo : Option (List Char)) (ss : Option Nat) :
    parseFields (("oid ".toList ++ o) :: rest) vv oo ss =
      parseFields rest vv (some o) ss := by
  have ht : trimList ("oid ".toList ++ o) = "oid ".toList ++ o :=
    trimList_keyLine _ _ (by decide) (by intro c hc; cases hc; decide)
      (validOid_ne_nil ho) (validOid_getLast_not_ws ho)
  have hs : splitKV ("oid ".toList ++ o) = some ("oid".toList, o) :=
    splitKV_append "oid".toList o (by decide)
  simp only [parseFields, ht, hs]
  rw [if_neg (by simp)]
  rw [if_neg (by decide)]
  rw [if_pos trivial, if_pos ho]

theorem parseFields_oid_fail (o : List Char) (rest : List (List Char))
    (ho1 : o ≠ []) (ho3 : trimList o = o) (ho : validOid o = false)
    (vv oo : Option (List Char)) (ss : Option Nat) :
    parseFields (("oid ".toList ++ o) :: rest) vv oo ss =
      .error (.invalidOid o) := by
  have ht : trimList ("oid ".toList ++ o) = "oid ".toList ++ o :=
    trimList_keyLine _ _ (by decide) (by intro c hc; cases hc; decide) ho1
      (trimList_self_getLast ho3)
  have hs : splitKV ("oid ".toList ++ o) = some ("oid".toList, o) :=
    splitKV_append "oid".toList o (by decide)
  simp only [parseFields, ht, hs]
  rw [if_neg (by simp)]
  rw [if_neg (by decide)]
  rw [if_pos trivial, if_neg (by simp [ho])]

theorem parseFields_size_step (n : Nat) (rest : List (List Char))
    (hn : n < 18446744073709551616)
    (vv oo : Option (List Char)) (ss : Option Nat) :
    parseFields (("size ".toList ++ natDigits n) :: rest) vv oo ss =
      parseFields rest vv oo (some n) := by
  have ht : trimList ("size ".toList ++ natDigits n) =
      "size ".toList ++ natDigits n :=
    trimList_keyLine _ _ (by decide) (by intro c hc; cases hc; decide)
      (natDigits_ne_nil n)
      (fun c hc => not_isWs_of_isDigit
        (natDigits_isDigit n _ (mem_of_getLastSome hc)))
  have hs : splitKV ("size ".toList ++ natDigits n) =
      some ("size".toList, natDigits n) :=
    splitKV_append "size".toList (natDigits n) (by decide)
  simp only [parseFields, ht, hs]
  rw [if_neg (by simp)]
  rw [if_neg (by decide), if_neg (by decide)]
  rw [if_pos trivial, parseU64_natDigits n hn]

theorem parseFields_size_fail (sv : List Char) (rest : List (List Char))
    (hs1 : sv ≠ []) (hs3 : trimList sv = sv) (hsp : parseU64 sv = none)
    (vv oo : Option (List Char)) (ss : Option Nat) :
    parseFields (("size ".toList ++ sv) :: rest) vv oo ss =
      .error (.invalidFormat sv) := by
  have ht : trimList ("size ".toList ++ sv) = "size ".toList ++ sv :=
    trimList_keyLine _ _ (by decide) (by intro c hc; cases hc; decide) hs1
      (trimList_self_getLast hs3)
  have hsk : splitKV ("size ".toList ++ sv) = some ("size".toList, sv) :=
    splitKV_append "size".toList sv (by decide)
  simp only [parseFields, ht, hsk]
  rw [if_neg (by simp)]
  rw [if_neg (by decide), if_neg (by decide)]
  rw [if_pos trivial, hsp]

theorem splitKV_none {l : List Char} (h : ' ' ∉ l) : splitKV l = none := by
  induction l with
  | nil => rfl
  | cons c t ih =>
      have hc : c ≠ ' ' := fun hc => h (hc ▸ List.mem_cons_self c t)
      have ht : ' ' ∉ t := fun hm => h (List.mem_cons_of_mem c hm)
      simp [splitKV, hc, ih ht]

theorem parseFields_malformed (l : List Char) (rest : List (List Char))
    (h1 : l ≠ []) (h3 : trimList l = l) (hsp : ' ' ∉ l)
    (vv oo : Option (List Char)) (ss : Option Nat) :
    parseFields (l :: rest) vv oo ss = .error (.invalidFormat l) := by
  simp only [parseFields, h3, splitKV_none hsp]
  rw [if_neg h1]

/-! ## Branch lemmas for the clean/smudge models -/

theorem take_all_of_le {t : List Char} (h : t.length ≤ maxPointerSize) :
    t.take (maxPointerSize + 1) = t :=
  List.take_of_length_le (by omega)

theorem cleanOneShot_pointer (cache : CacheSt) (t : List Char)
    (h1 : t.length ≤ maxPointerSize) (h2 : (parseContent t).isOk = true) :
    cleanOneShot cache t = ⟨t, 0, cache, false⟩ := by
  unfold cleanOneShot
  rw [take_all_of_le h1, if_pos (by simp [h1, h2])]

theorem cleanOneShot_large (cache : CacheSt) (t : List Char)
    (h : maxPointerSize < t.length) :
    cleanOneShot cache t =
      ⟨(Pointer.fromBytes t).serialize, 0,
       cachePut cache (Pointer.fromBytes t).sha256Hex t, false⟩ := by
  unfold cleanOneShot
  have hlen : (t.take (maxPointerSize + 1)).length = maxPointerSize + 1 := by
    rw [List.length_take]
    omega
  rw [if_neg (by simp [hlen])]
  rw [fromReader_eq_fromBytes]
  simp

theorem smudgeOneShot_pointer (env : SmudgeEnv) (t : List Char) (p : Pointer)
    (hskip : env.skip = false) (h1 : t.length ≤ maxPointerSize)
    (h2 : parseContent t = .ok p) :
    smudgeOneShot env t = downloadAndOutput env p t := by
  unfold smudgeOneShot
  rw [if_neg (by simp [hskip]), take_all_of_le h1, if_pos h1, h2]

theorem smudgeOneShot_notPointer (env : SmudgeEnv) (t : List Char)
    (hskip : env.skip = false) (h2 : (parseContent t).isOk = false) :
    smudgeOneShot env t = ⟨t, 0, env.cache, false⟩ := by
  unfold smudgeOneShot
  rw [if_neg (by simp [hskip])]
  by_cases h1 : t.length ≤ maxPointerSize
  · rw [take_all_of_le h1, if_pos h1]
    cases hp : parseContent t with
    | ok p => rw [hp] at h2; simp [Except.isOk, Except.toBool] at h2
    | error e => rfl
  · rw [if_neg]
    have hlen : (t.take (maxPointerSize + 1)).length = maxPointerSize + 1 := by
      rw [List.length_take]
      omega
    rw [hlen]
    omega

theorem smudgeOneShot_large (env : SmudgeEnv) (t : List Char)
    (hskip : env.skip = false) (h : maxPointerSize < t.length) :
    smudgeOneShot env t = ⟨t, 0, env.cache, false⟩ := by
  unfold smudgeOneShot
  rw [if_neg (by simp [hskip])]
  rw [if_neg]
  have hlen : (t.take (maxPointerSize + 1)).length = maxPointerSize + 1 := by
    rw [List.length_take]
    omega
  rw [hlen]
  omega

theorem processClean_pointer (cache : CacheSt) (t : List Char)
    (h1 : t.length ≤ maxPointerSize) (h2 : (parseContent t).isOk = true) :
    processClean cache t = (successResponse t, cache) := by
  unfold processClean
  rw [if_pos (by simp [h1, h2])]

theorem processClean_raw (cache : CacheSt) (t : List Char)
    (h : (decide (t.length ≤ maxPointerSize) && (parseContent t).isOk) = false) :
    processClean cache t =
      (successResponse (Pointer.fromBytes t).serialize,
       cachePut cache (Pointer.fromBytes t).sha256Hex t) := by
  unfold processClean
  rw [if_neg (by simp [h])]
  rw [fromReader_eq_fromBytes]
  simp

theorem processSmudge_notPointer (env : EngineEnv) (t : List Char)
    (h : (parseContent t).isOk = false) :
    processSmudge env t = (.ok (successResponse t), env.cache, false) := by
  unfold processSmudge
  cases hp : parseContent t with
  | ok p => rw [hp] at h; simp [Except.isOk, Except.toBool] at h
  | error e => rfl

theorem processSmudge_mismatch (env : EngineEnv) (t : List Char) (p : Pointer)
    (dl : List Char → Except Unit (List Char)) (d : List Char)
    (hp : parseContent t = .ok p)
    (hc : cacheGet env.cache p.sha256Hex = none)
    (hs : env.storage = some dl)
    (hd : dl p.sha256Hex = .ok d)
    (hm : oidOfBytes (d.map Char.toNat) ≠ p.oid) :
    processSmudge env t = (.error (), env.cache, false) := by
  unfold processSmudge
  rw [hp]
  simp only [hc, hs, hd]
  rw [if_pos hm]

theorem downloadAndOutput_mismatch (env : SmudgeEnv) (p : Pointer)
    (pointerBytes d : List Char)
    (hc : cacheGet env.cache p.sha256Hex = none)
    (hr : env.repoFound = true) (hw : env.hasWorkdir = true)
    (hcf : env.configOk = true)
    (hd : env.download p.sha256Hex = .ok d)
    (hm : oidOfBytes (d.map Char.toNat) ≠ p.oid) :
    downloadAndOutput env p pointerBytes =
      ⟨pointerBytes, 0, env.cache, false⟩ := by
  simp only [downloadAndOutput]
  rw [hc]
  simp only [hr, hw, hcf, Bool.not_true, Bool.false_eq_true, if_false, hd]
  rw [if_pos hm]

/-! ## Line-group decomposition helper -/

theorem rustLines_keyLine (k v : List Char) (rest : List Char)
    (hknl : '\n' ∉ k) (hv2 : '\n' ∉ v) (hv1 : v ≠ [])
    (hvl : ∀ c, v.getLast? = some c → isWs c = false) :
    rustLines ((k ++ v) ++ '\n' :: rest) = (k ++ v) :: rustLines rest := by
  apply rustLines_cons
  · intro hm
    rcases List.mem_append.mp hm with hm | hm
    exacts [hknl hm, hv2 hm]
  · rw [List.getLast?_append_of_ne_nil _ hv1]
    intro hc
    exact absurd (hvl _ hc) (by decide)

theorem natDigits_no_nl (n : Nat) : '\n' ∉ natDigits n := fun hm =>
  absurd rfl (ne_nl_of_isDigit (natDigits_isDigit n _ hm)).symm

theorem natDigits_getLast_not_ws (n : Nat) :
    ∀ c, (natDigits n).getLast? = some c → isWs c = false := fun _ hc =>
  not_isWs_of_isDigit (natDigits_isDigit n _ (mem_of_getLastSome hc))

/-! ## Claims -/

/-- Claim C2 (amended): `parse_content` fails with `MissingField` naming the
first absent required field when all present lines are well-formed; with
`InvalidOid` when an oid value does not match `sha256:` followed by exactly
64 hexadecimal characters of either case (the source accepts uppercase via
`is_ascii_hexdigit`, so "lowercase" in the original claim is corrected to
"case-insensitive"); and with `InvalidFormat` for a nonempty line without a
space or for a size value that does not parse as a `u64`. -/
theorem claimC2_parse_error_classes :
    (∀ (o : List Char) (n : Nat), validOid o = true →
      n < 18446744073709551616 →
      parseContent ("oid ".toList ++ o ++ '\n' ::
        ("size ".toList ++ natDigits n ++ ['\n'])) =
        .error (.missingField "version".toList)) ∧
    (∀ (v : List Char) (n : Nat), v ≠ [] → '\n' ∉ v → trimList v = v →
      n < 18446744073709551616 →
      parseContent ("version ".toList ++ v ++ '\n' ::
        ("size ".toList ++ natDigits n ++ ['\n'])) =
        .error (.missingField "oid".toList)) ∧
    (∀ (v o : List Char), v ≠ [] → '\n' ∉ v → trimList v = v →
      validOid o = true →
      parseContent ("version ".toList ++ v ++ '\n' ::
        ("oid ".toList ++ o ++ ['\n'])) =
        .error (.missingField "size".toList)) ∧
    (∀ (bad rest : List Char), bad ≠ [] → '\n' ∉ bad → trimList bad = bad →
      validOid bad = false →
      parseContent ("oid ".toList ++ bad ++ '\n' :: rest) =
        .error (.invalidOid bad)) ∧
    (∀ (l rest : List Char), l ≠ [] → '\n' ∉ l → trimList l = l → ' ' ∉ l →
      parseContent (l ++ '\n' :: rest) = .error (.invalidFormat l)) ∧
    (∀ (sv rest : List Char), sv ≠ [] → '\n' ∉ sv → trimList sv = sv →
      parseU64 sv = none →
      parseContent ("size ".toList ++ sv ++ '\n' :: rest) =
        .error (.invalidFormat sv)) := by
  refine ⟨?_, ?_, ?_, ?_, ?_, ?_⟩
  · intro o n ho hn
    have h1 : "oid ".toList ++ o ++ '\n' ::
        ("size ".toList ++ natDigits n ++ ['\n']) =
        ("oid ".toList ++ o) ++ '\n' ::
          (("size ".toList ++ natDigits n) ++ '\n' :: ([] : List Char)) := by
      simp [List.append_assoc]
    rw [h1]
    unfold parseContent
    rw [rustLines_keyLine _ _ _ (by decide) (validOid_no_nl ho)
        (validOid_ne_nil ho) (validOid_getLast_not_ws ho),
      rustLines_keyLine _ _ _ (by decide) (natDigits_no_nl n)
        (natDigits_ne_nil n) (natDigits_getLast_not_ws n),
      rustLines_nil,
      parseFields_oid_step o _ ho,
      parseFields_size_step n _ hn]
    simp [parseFields]
  · intro v n hv1 hv2 hv3 hn
    have h1 : "version ".toList ++ v ++ '\n' ::
        ("size ".toList ++ natDigits n ++ ['\n']) =
        ("version ".toList ++ v) ++ '\n' ::
          (("size ".toList ++ natDigits n) ++ '\n' :: ([] : List Char)) := by
      simp [List.append_assoc]
    rw [h1]
    unfold parseContent
    rw [rustLines_keyLine _ _ _ (by decide) hv2 hv1
        (trimList_self_getLast hv3),
      rustLines_keyLine _ _ _ (by decide) (natDigits_no_nl n)
        (natDigits_ne_nil n) (natDigits_getLast_not_ws n),
      rustLines_nil,
      parseFields_version_step v _ hv1 hv3,
      parseFields_size_step n _ hn]
    simp [parseFields]
  · intro v o hv1 hv2 hv3 ho
    have h1 : "version ".toList ++ v ++ '\n' ::
        ("oid ".toList ++ o ++ ['\n']) =
        ("version ".toList ++ v) ++ '\n' ::
          (("oid ".toList ++ o) ++ '\n' :: ([] : List Char)) := by
      simp [List.append_assoc]
    rw [h1]
    unfold parseContent
    rw [rustLines_keyLine _ _ _ (by decide) hv2 hv1
        (trimList_self_getLast hv3),
      rustLines_keyLine _ _ _ (by decide) (validOid_no_nl ho)
        (validOid_ne_nil ho) (validOid_getLast_not_ws ho),
      rustLines_nil,
      parseFields_version_step v _ hv1 hv3,
      parseFields_oid_step o _ ho]
    simp [parseFields]
  · intro bad rest h1 h2 h3 ho
    have hsh : "oid ".toList ++ bad ++ '\n' :: rest =
        ("oid ".toList ++ bad) ++ '\n' :: rest := by
      simp [List.append_assoc]
    rw [hsh]
    unfold parseContent
    rw [rustLines_keyLine _ _ _ (by decide) h2 h1 (trimList_self_getLast h3),
      parseFields_oid_fail bad _ h1 h3 ho]
  · intro l rest h1 h2 h3 hsp
    unfold parseContent
    rw [rustLines_cons l rest h2
        (fun hc => absurd (trimList_self_getLast h3 _ hc) (by decide)),
      parseFields_malformed l _ h1 h3 hsp]
  · intro sv rest h1 h2 h3 hsp
    have hsh : "size ".toList ++ sv ++ '\n' :: rest =
        ("size ".toList ++ sv) ++ '\n' :: rest := by
      simp [List.append_assoc]
    rw [hsh]
    unfold parseContent
    rw [rustLines_keyLine _ _ _ (by decide) h2 h1 (trimList_self_getLast h3),
      parseFields_size_fail sv _ h1 h3 hsp]

/-- Witness for C2: each error class exhibited at a concrete input via the
theorem. -/
theorem claimC2_witness :
    parseContent ("oid ".toList ++ oidA64 ++ '\n' ::
      ("size ".toList ++ natDigits 5 ++ ['\n'])) =
      .error (.missingField "version".toList) ∧
    parseContent ("version ".toList ++ "v1".toList ++ '\n' ::
      ("size ".toList ++ natDigits 5 ++ ['\n'])) =
      .error (.missingField "oid".toList) ∧
    parseContent ("version ".toList ++ "v1".toList ++ '\n' ::
      ("oid ".toList ++ oidA64 ++ ['\n'])) =
      .error (.missingField "size".toList) ∧
    parseContent ("oid ".toList ++ "md5:zz".toList ++ '\n' :: []) =
      .error (.invalidOid "md5:zz".toList) ∧
    parseContent ("nospace".toList ++ '\n' :: []) =
      .error (.invalidFormat "nospace".toList) ∧
    parseContent ("size ".toList ++ "12cows".toList ++ '\n' :: []) =
      .error (.invalidFormat "12cows".toList) :=
  ⟨claimC2_parse_error_classes.1 oidA64 5 (by decide) (by decide),
   claimC2_parse_error_classes.2.1 "v1".toList 5 (by decide) (by decide)
     (by decide) (by decide),
   claimC2_parse_error_classes.2.2.1 "v1".toList oidA64 (by decide) (by decide)
     (by decide) (by decide),
   claimC2_parse_error_classes.2.2.2.1 "md5:zz".toList [] (by decide)
     (by decide) (by decide) (by decide),
   claimC2_parse_error_classes.2.2.2.2.1 "nospace".toList [] (by decide)
     (by decide) (by decide) (by decide),
   claimC2_parse_error_classes.2.2.2.2.2 "12cows".toList [] (by decide)
     (by decide) (by decide) (by decide)⟩

/-- Counterexample to C2 as stated: an oid whose hex is uppercase does not
match `sha256:<64 lowercase hex>`, yet the decoder accepts it (the source
checks `is_ascii_hexdigit`, which is case-insensitive). -/
theorem claimC2_counterexample :
    parseContent ("version ".toList ++ lfsVersion ++ '\n' ::
      ("oid ".toList ++ ("sha256:".toList ++ List.replicate 64 'A') ++ '\n' ::
        ("size ".toList ++ natDigits 100 ++ ['\n']))) =
      .ok ⟨lfsVersion, "sha256:".toList ++ List.replicate 64 'A', 100⟩ := by
  decide

/-- Claim C3: an input that fits within the pointer ceiling and decodes as
a pointer is passed through byte-for-byte by both the one-shot clean
adapter (exit 0, cache untouched) and the engine clean handler (a success
response carrying exactly the input), not re-encoded. -/
theorem claimC3_idempotent_clean (cache : CacheSt) (t : List Char)
    (p : Pointer) (h1 : t.length ≤ maxPointerSize)
    (h2 : parseContent t = .ok p) :
    cleanOneShot cache t = ⟨t, 0, cache, false⟩ ∧
    processClean cache t = (successResponse t, cache) := by
  have hok : (parseContent t).isOk = true := by rw [h2]; rfl
  exact ⟨cleanOneShot_pointer cache t h1 hok,
    processClean_pointer cache t h1 hok⟩

/-- Witness for C3 at the concrete pointer text `ptextA`. -/
theorem claimC3_witness :
    cleanOneShot (some []) ptextA = ⟨ptextA, 0, some [], false⟩ ∧
    processClean (some []) ptextA = (successResponse ptextA, some []) :=
  claimC3_idempotent_clean (some []) ptextA pA (by decide) (by decide)

/-- Claim C4: for every byte sequence B, parsing the canonical
serialization of `encode(B)` succeeds and returns exactly `encode(B)` (in
particular equal oid and size), and encode is deterministic in B regardless
of chunking: `from_reader` on any chunking of B yields the pointer of B and
mirrors exactly B to the cache sink. -/
theorem claimC4_roundtrip (B : List Char)
    (hB : B.length < 18446744073709551616) :
    parseContent ((Pointer.fromBytes B).serialize) = .ok (Pointer.fromBytes B) ∧
    ∀ chunks : List (List Char), chunks.flatten = B →
      Pointer.fromReader chunks = (Pointer.fromBytes B, B) := by
  refine ⟨parse_serialize_fromBytes B hB, ?_⟩
  intro chunks hc
  rw [fromReader_eq_fromBytes, hc]

/-- Witness for C4 at B = "Hello, World!". -/
theorem claimC4_witness :
    ("Hello, World!".toList.length < 18446744073709551616) ∧
    (parseContent ((Pointer.fromBytes "Hello, World!".toList).serialize) =
      .ok (Pointer.fromBytes "Hello, World!".toList) ∧
     ∀ chunks : List (List Char), chunks.flatten = "Hello, World!".toList →
       Pointer.fromReader chunks =
         (Pointer.fromBytes "Hello, World!".toList, "Hello, World!".toList)) :=
  ⟨by decide, claimC4_roundtrip "Hello, World!".toList (by decide)⟩

/-- Claim C5: an input that fails to decode as a pointer is emitted
unchanged with success by both the one-shot smudge adapter (exit 0) and
the engine smudge handler (`status=success` response carrying the input);
the decode failure is never propagated. -/
theorem claimC5_smudge_passthrough (t : List Char)
    (h : (parseContent t).isOk = false) :
    (∀ env : SmudgeEnv, env.skip = false →
      smudgeOneShot env t = ⟨t, 0, env.cache, false⟩) ∧
    (∀ env : EngineEnv,
      processSmudge env t = (.ok (successResponse t), env.cache, false)) :=
  ⟨fun env hskip => smudgeOneShot_notPointer env t hskip h,
   fun env => processSmudge_notPointer env t h⟩

/-- Witness for C5 at text with a non-hex oid (spec Scenario C). -/
theorem claimC5_witness :
    ((parseContent ("version ".toList ++ lfsVersion ++ '\n' ::
        ("oid sha256:nothex\n".toList ++ "size 5\n".toList))).isOk = false) ∧
    smudgeOneShot envMismatchOne
      ("version ".toList ++ lfsVersion ++ '\n' ::
        ("oid sha256:nothex\n".toList ++ "size 5\n".toList)) =
      ⟨("version ".toList ++ lfsVersion ++ '\n' ::
        ("oid sha256:nothex\n".toList ++ "size 5\n".toList)), 0,
       envMismatchOne.cache, false⟩ :=
  ⟨by decide,
   (claimC5_smudge_passthrough _ (by decide)).1 envMismatchOne (by decide)⟩

/-- Claim C10: the decoder does not validate the version value — any
version string together with a valid oid and size decodes successfully and
returns that version verbatim, and such text is classified as a pointer by
the one-shot clean and smudge adapters. -/
theorem claimC10_version_not_validated (v hex : List Char) (n : Nat)
    (cache : CacheSt) (t : List Char)
    (hv1 : v ≠ []) (hv2 : '\n' ∉ v) (hv3 : trimList v = v)
    (hh1 : hex.length = 64) (hh2 : hex.all isHexChar = true)
    (hn : n < 18446744073709551616)
    (ht : t = "version ".toList ++ v ++ '\n' ::
      ("oid ".toList ++ ("sha256:".toList ++ hex) ++ '\n' ::
        ("size ".toList ++ natDigits n ++ ['\n']))) :
    parseContent t = .ok ⟨v, "sha256:".toList ++ hex, n⟩ ∧
    (t.length ≤ maxPointerSize →
      cleanOneShot cache t = ⟨t, 0, cache, false⟩ ∧
      ∀ env : SmudgeEnv, env.skip = false →
        smudgeOneShot env t =
          downloadAndOutput env ⟨v, "sha256:".toList ++ hex, n⟩ t) := by
  have ho : validOid ("sha256:".toList ++ hex) = true := by
    unfold validOid
    rw [drop7_sha256Scheme]
    simp only [Bool.and_eq_true, decide_eq_true_eq]
    exact ⟨startsWithL_append _ _, hh1, hh2⟩
  have hp : parseContent t = .ok ⟨v, "sha256:".toList ++ hex, n⟩ := by
    rw [ht]
    exact parseContent_three v ("sha256:".toList ++ hex) n hv1 hv2 hv3 ho hn
  refine ⟨hp, fun hlen => ⟨?_, fun env hskip => ?_⟩⟩
  · exact cleanOneShot_pointer cache t hlen (by rw [hp]; rfl)
  · exact smudgeOneShot_pointer env t _ hskip hlen hp

/-- Witness for C10 with the version string "custom-version-9". -/
theorem claimC10_witness :
    parseContent ("version ".toList ++ "custom-version-9".toList ++ '\n' ::
      ("oid ".toList ++ ("sha256:".toList ++ hexA64) ++ '\n' ::
        ("size ".toList ++ natDigits 5 ++ ['\n']))) =
      .ok ⟨"custom-version-9".toList, "sha256:".toList ++ hexA64, 5⟩ ∧
    (("version ".toList ++ "custom-version-9".toList ++ '\n' ::
      ("oid ".toList ++ ("sha256:".toList ++ hexA64) ++ '\n' ::
        ("size ".toList ++ natDigits 5 ++ ['\n']))).length ≤ maxPointerSize →
      cleanOneShot (some []) ("version ".toList ++ "custom-version-9".toList ++ '\n' ::
        ("oid ".toList ++ ("sha256:".toList ++ hexA64) ++ '\n' ::
          ("size ".toList ++ natDigits 5 ++ ['\n']))) =
        ⟨("version ".toList ++ "custom-version-9".toList ++ '\n' ::
          ("oid ".toList ++ ("sha256:".toList ++ hexA64) ++ '\n' ::
            ("size ".toList ++ natDigits 5 ++ ['\n']))), 0, some [], false⟩ ∧
      ∀ env : SmudgeEnv, env.skip = false →
        smudgeOneShot env ("version ".toList ++ "custom-version-9".toList ++ '\n' ::
          ("oid ".toList ++ ("sha256:".toList ++ hexA64) ++ '\n' ::
            ("size ".toList ++ natDigits 5 ++ ['\n']))) =
          downloadAndOutput env ⟨"custom-version-9".toList,
            "sha256:".toList ++ hexA64, 5⟩
            ("version ".toList ++ "custom-version-9".toList ++ '\n' ::
              ("oid ".toList ++ ("sha256:".toList ++ hexA64) ++ '\n' ::
                ("size ".toList ++ natDigits 5 ++ ['\n'])))) :=
  claimC10_version_not_validated "custom-version-9".toList hexA64 5 (some []) _
    (by decide) (by decide) (by decide) (by decide) (by decide) (by decide) rfl

/-- Claim C6: content of exactly the pointer-ceiling size (1024 bytes)
that decodes as a pointer is recognized by the one-shot clean and smudge
adapters; content one byte larger is never attempted as a pointer decode —
clean re-encodes it unconditionally and smudge passes it through
unconditionally (even when `parse_content` would succeed on it),
`Pointer::parse` rejects it with `TooLarge`, and the pointer probe inspects
only the first ceiling-plus-one bytes of the input. -/
theorem claimC6_ceiling_boundary (t : List Char) :
    (t.length = maxPointerSize →
      ∀ p : Pointer, parseContent t = .ok p →
        (∀ cache : CacheSt, cleanOneShot cache t = ⟨t, 0, cache, false⟩) ∧
        (∀ env : SmudgeEnv, env.skip = false →
          smudgeOneShot env t = downloadAndOutput env p t)) ∧
    (maxPointerSize < t.length →
      (∀ cache : CacheSt, cleanOneShot cache t =
        ⟨(Pointer.fromBytes t).serialize, 0,
         cachePut cache (Pointer.fromBytes t).sha256Hex t, false⟩) ∧
      (∀ env : SmudgeEnv, env.skip = false →
        smudgeOneShot env t = ⟨t, 0, env.cache, false⟩) ∧
      parseFile t = .error .tooLarge) ∧
    pointerProbe t = pointerProbe (t.take (maxPointerSize + 1)) := by
  refine ⟨?_, ?_, ?_⟩
  · intro hlen p hp
    have hle : t.length ≤ maxPointerSize := le_of_eq hlen
    refine ⟨fun cache => cleanOneShot_pointer cache t hle (by rw [hp]; rfl),
      fun env hskip => smudgeOneShot_pointer env t p hskip hle hp⟩
  · intro hgt
    refine ⟨fun cache => cleanOneShot_large cache t hgt,
      fun env hskip => smudgeOneShot_large env t hskip hgt, ?_⟩
    unfold parseFile
    rw [if_pos (by omega)]
  · simp only [pointerProbe]
    by_cases hle : t.length ≤ maxPointerSize
    · simp only [take_all_of_le hle]
    · have h1 : (t.take (maxPointerSize + 1)).length = maxPointerSize + 1 := by
        rw [List.length_take]
        omega
      rw [List.take_take, min_self, h1]

/-- Witness for C6: `ptext1024` is exactly 1024 bytes and still recognized;
adding one byte defeats the probe. -/
theorem claimC6_witness :
    (ptext1024.length = maxPointerSize →
      ∀ p : Pointer, parseContent ptext1024 = .ok p →
        (∀ cache : CacheSt,
          cleanOneShot cache ptext1024 = ⟨ptext1024, 0, cache, false⟩) ∧
        (∀ env : SmudgeEnv, env.skip = false →
          smudgeOneShot env ptext1024 = downloadAndOutput env p ptext1024)) ∧
    (ptext1024.length = maxPointerSize ∧
      parseContent ptext1024 = .ok pA) ∧
    (maxPointerSize < (ptext1024 ++ ['\n']).length →
      (∀ cache : CacheSt, cleanOneShot cache (ptext1024 ++ ['\n']) =
        ⟨(Pointer.fromBytes (ptext1024 ++ ['\n'])).serialize, 0,
         cachePut cache (Pointer.fromBytes (ptext1024 ++ ['\n'])).sha256Hex
           (ptext1024 ++ ['\n']), false⟩) ∧
      (∀ env : SmudgeEnv, env.skip = false →
        smudgeOneShot env (ptext1024 ++ ['\n']) =
          ⟨ptext1024 ++ ['\n'], 0, env.cache, false⟩) ∧
      parseFile (ptext1024 ++ ['\n']) = .error .tooLarge) ∧
    (maxPointerSize < (ptext1024 ++ ['\n']).length) :=
  ⟨(claimC6_ceiling_boundary ptext1024).1, ⟨by decide, by decide⟩,
   (claimC6_ceiling_boundary (ptext1024 ++ ['\n'])).2.1, by decide⟩

/-! ## Engine loop and handshake lemmas -/

theorem readVersions_skip (frames : List (List Char)) (rest : List Tok)
    (got : Bool) (h : ∀ f ∈ frames, trimList f ≠ "version=2".toList) :
    readVersions (frames.map Tok.data ++ Tok.flush :: rest) got =
      .ok (got, rest) := by
  induction frames generalizing got with
  | nil => rfl
  | cons f fs ih =>
      have hf : trimList f ≠ "version=2".toList :=
        h f (List.mem_cons_self _ _)
      have hfs : ∀ g ∈ fs, trimList g ≠ "version=2".toList :=
        fun g hg => h g (List.mem_cons_of_mem _ hg)
      simp only [List.map_cons, List.cons_append, readVersions]
      rw [decide_eq_false hf, Bool.or_false]
      exact ih got hfs

theorem readCaps_collect (caps : List (List Char)) (rest : List Tok)
    (acc : List (List Char))
    (h : ∀ cp ∈ caps, trimList ("capability=".toList ++ cp) =
      "capability=".toList ++ cp) :
    readCaps ((caps.map (fun cp => Tok.data ("capability=".toList ++ cp))) ++
        Tok.flush :: rest) acc = .ok (acc ++ caps, rest) := by
  induction caps generalizing acc with
  | nil => simp [readCaps]
  | cons cp cps ih =>
      have hc := h cp (List.mem_cons_self _ _)
      have hcs : ∀ q ∈ cps, trimList ("capability=".toList ++ q) =
          "capability=".toList ++ q :=
        fun q hq => h q (List.mem_cons_of_mem _ hq)
      simp only [List.map_cons, List.cons_append, readCaps, hc]
      rw [if_pos (startsWithL_append "capability=".toList cp)]
      have hdrop : ("capability=".toList ++ cp).drop 11 = cp := rfl
      rw [hdrop]
      simpa using ih (acc ++ [cp]) hcs

/-- Claim C8: the handshake fails fatally unless the client identity frame
is `git-filter-client` (any other first token is also fatal) and a
`version=2` declaration appears among the frames before the first flush;
on success the server replies with its identity, version and flush, and its
capability response is exactly the intersection of the client's declared
capabilities with clean and smudge. -/
theorem claimC8_handshake :
    (∀ (s : List Char) (r : List Tok), trimList s ≠ "git-filter-client".toList →
      handshake (.data s :: r) = .error ()) ∧
    (handshake [] = .error () ∧
     (∀ r : List Tok, handshake (.flush :: r) = .error ()) ∧
     (∀ r : List Tok, handshake (.bad :: r) = .error ())) ∧
    (∀ (frames : List (List Char)) (rest : List Tok),
      (∀ f ∈ frames, trimList f ≠ "version=2".toList) →
      handshake (.data "git-filter-client".toList ::
        (frames.map Tok.data ++ .flush :: rest)) = .error ()) ∧
    (∀ (caps : List (List Char)) (rest : List Tok),
      (∀ cp ∈ caps, trimList ("capability=".toList ++ cp) =
        "capability=".toList ++ cp) →
      handshake (.data "git-filter-client".toList ::
        .data "version=2".toList :: .flush ::
        ((caps.map (fun cp => Tok.data ("capability=".toList ++ cp))) ++
          .flush :: rest)) =
        .ok ([.frame "git-filter-server\n".toList,
              .frame "version=2\n".toList, .flushPkt] ++
             (if caps.contains "clean".toList then
                [.frame "capability=clean\n".toList] else []) ++
             (if caps.contains "smudge".toList then
                [.frame "capability=smudge\n".toList] else []) ++
             [.flushPkt],
             rest)) := by
  refine ⟨?_, ⟨rfl, fun _ => rfl, fun _ => rfl⟩, ?_, ?_⟩
  · intro s r h
    simp only [handshake]
    rw [if_neg h]
  · intro frames rest h
    simp only [handshake]
    rw [if_pos (by decide)]
    rw [readVersions_skip frames rest false h]
    rfl
  · intro caps rest h
    simp only [handshake]
    rw [if_pos (by decide)]
    have hv : readVersions (Tok.data "version=2".toList :: Tok.flush ::
        ((caps.map (fun cp => Tok.data ("capability=".toList ++ cp))) ++
          Tok.flush :: rest)) false =
        .ok (true, (caps.map (fun cp =>
          Tok.data ("capability=".toList ++ cp))) ++ Tok.flush :: rest) := by
      simp only [readVersions]
      rw [show decide (trimList "version=2".toList = "version=2".toList) =
        true by decide]
      rfl
    have hcap := readCaps_collect caps rest [] h
    simp only [hv, hcap]
    simp

/-- Witness for C8: client capabilities clean and smudge yield server
capabilities exactly clean and smudge. -/
theorem claimC8_witness :
    (∀ cp ∈ ["clean".toList, "smudge".toList],
      trimList ("capability=".toList ++ cp) = "capability=".toList ++ cp) ∧
    handshake (.data "git-filter-client".toList ::
        .data "version=2".toList :: .flush ::
        ((["clean".toList, "smudge".toList].map
          (fun cp => Tok.data ("capability=".toList ++ cp))) ++
          .flush :: [])) =
      .ok ([.frame "git-filter-server\n".toList,
            .frame "version=2\n".toList, .flushPkt] ++
           (if ["clean".toList, "smudge".toList].contains "clean".toList then
              [.frame "capability=clean\n".toList] else []) ++
           (if ["clean".toList, "smudge".toList].contains "smudge".toList then
              [.frame "capability=smudge\n".toList] else []) ++
           [.flushPkt], []) :=
  ⟨by decide,
   claimC8_handshake.2.2.2 ["clean".toList, "smudge".toList] [] (by decide)⟩

/-- Claim C7: whenever a dispatched clean/smudge request fails, the engine
writes `status=error` and two flush packets after whatever the handler
wrote, and then continues with the remaining input as the next request's
metadata — a single failed file never terminates the session.  A malformed
frame while reading metadata (a hard transport I/O error) terminates the
engine. -/
theorem claimC7_error_recovery (d : List Char → List Tok → DispatchResult)
    (n : Nat) (rest : List Tok)
    (h : (d "clean".toList rest).ok = false) :
    runLoop d (n + 1) (.data "command=clean".toList :: .flush :: rest) =
      ((d "clean".toList rest).written ++
        ([statusError, .flushPkt, .flushPkt] ++
          (runLoop d n (d "clean".toList rest).rest).1),
       (runLoop d n (d "clean".toList rest).rest).2) ∧
    (∀ l : List Tok, runLoop d (n + 1) (.bad :: l) = ([], .transportErr)) := by
  constructor
  · have hm : readMeta (Tok.data "command=clean".toList ::
        Tok.flush :: rest) [] [] = .ok (some ("clean".toList, []), rest) := rfl
    simp only [runLoop, hm]
    rw [if_neg (show ¬("clean".toList = ([] : List Char)) by decide)]
    rw [h]
    simp
  · intro l
    rfl

/-- Witness for C7 with a dispatch that always fails. -/
theorem claimC7_witness :
    ((fun (_ : List Char) (toks : List Tok) =>
        (⟨toks, [], false⟩ : DispatchResult)) "clean".toList [] ).ok = false ∧
    runLoop (fun _ toks => ⟨toks, [], false⟩) 1
        (.data "command=clean".toList :: .flush :: []) =
      (((fun (_ : List Char) (toks : List Tok) =>
          (⟨toks, [], false⟩ : DispatchResult)) "clean".toList []).written ++
        ([statusError, .flushPkt, .flushPkt] ++
          (runLoop (fun _ toks => ⟨toks, [], false⟩) 0
            ((fun (_ : List Char) (toks : List Tok) =>
              (⟨toks, [], false⟩ : DispatchResult)) "clean".toList []).rest).1),
       (runLoop (fun _ toks => ⟨toks, [], false⟩) 0
         ((fun (_ : List Char) (toks : List Tok) =>
           (⟨toks, [], false⟩ : DispatchResult)) "clean".toList []).rest).2) ∧
    runLoop (fun _ toks => ⟨toks, [], false⟩) 1 [.bad] = ([], .transportErr) :=
  ⟨rfl,
   (claimC7_error_recovery (fun _ toks => ⟨toks, [], false⟩) 0 [] rfl).1,
   (claimC7_error_recovery (fun _ toks => ⟨toks, [], false⟩) 0 [] rfl).2 []⟩

/-- Claim C1 (amended): when a smudged pointer misses the cache and the
backend serves content whose SHA-256 differs from the declared oid, the
protocol engine fails the file hard — `process_smudge` returns `Err` with
the temp file deleted and the cache untouched, and the engine loop surfaces
it as `status=error` plus two flushes before continuing — while the
one-shot adapter also deletes the temp file and keeps the unverified
content out of cache and output, but degrades gracefully instead of
failing: it emits the original pointer text with a warning and exits 0. -/
theorem claimC1_integrity_mismatch
    (t d : List Char) (p : Pointer) (dl : List Char → Except Unit (List Char))
    (eEnv : EngineEnv) (sEnv : SmudgeEnv) (n : Nat) (rest : List Tok)
    (hp : parseContent t = .ok p)
    (hmis : oidOfBytes (d.map Char.toNat) ≠ p.oid)
    (hec : cacheGet eEnv.cache p.sha256Hex = none)
    (hes : eEnv.storage = some dl)
    (hed : dl p.sha256Hex = .ok d)
    (heskip : eEnv.skip = false)
    (hsc : cacheGet sEnv.cache p.sha256Hex = none)
    (hsr : sEnv.repoFound = true) (hsw : sEnv.hasWorkdir = true)
    (hscf : sEnv.configOk = true)
    (hsd : sEnv.download p.sha256Hex = .ok d)
    (hsskip : sEnv.skip = false)
    (hlen : t.length ≤ maxPointerSize) :
    processSmudge eEnv t = (.error (), eEnv.cache, false) ∧
    runLoop (engineDispatch eEnv) (n + 1)
        (.data "command=smudge".toList :: .flush :: .data t :: .flush :: rest) =
      ([statusError, .flushPkt, .flushPkt] ++
        (runLoop (engineDispatch eEnv) n rest).1,
       (runLoop (engineDispatch eEnv) n rest).2) ∧
    smudgeOneShot sEnv t = ⟨t, 0, sEnv.cache, false⟩ := by
  have hps : processSmudge eEnv t = (.error (), eEnv.cache, false) :=
    processSmudge_mismatch eEnv t p dl d hp hec hes hed hmis
  refine ⟨hps, ?_, ?_⟩
  · have hdisp : engineDispatch eEnv "smudge".toList
        (.data t :: .flush :: rest) = ⟨rest, [], false⟩ := by
      unfold engineDispatch
      rw [if_neg (by decide)]
      rw [if_neg (by simp [heskip])]
      rw [if_pos (by decide)]
      have hrd : pktReadToFlushR (Tok.data t :: Tok.flush :: rest) =
          (some t, rest) := by
        simp [pktReadToFlushR]
      rw [hrd]
      simp only [hps]
    have hm : readMeta (Tok.data "command=smudge".toList ::
        Tok.flush :: .data t :: .flush :: rest) [] [] =
        .ok (some ("smudge".toList, []), .data t :: .flush :: rest) := rfl
    simp only [runLoop, hm]
    rw [if_neg (show ¬("smudge".toList = ([] : List Char)) by decide)]
    rw [hdisp]
    simp
  · rw [smudgeOneShot_pointer sEnv t p hsskip hlen hp]
    exact downloadAndOutput_mismatch sEnv p t d hsc hsr hsw hscf hsd hmis

/-- Witness for C1 at the concrete pointer `ptextA` with a backend serving
the single byte x. -/
theorem claimC1_witness :
    processSmudge envMismatchEngine ptextA =
      (.error (), envMismatchEngine.cache, false) ∧
    runLoop (engineDispatch envMismatchEngine) 1
        (.data "command=smudge".toList :: .flush ::
          .data ptextA :: .flush :: []) =
      ([statusError, .flushPkt, .flushPkt] ++
        (runLoop (engineDispatch envMismatchEngine) 0 []).1,
       (runLoop (engineDispatch envMismatchEngine) 0 []).2) ∧
    smudgeOneShot envMismatchOne ptextA =
      ⟨ptextA, 0, envMismatchOne.cache, false⟩ :=
  claimC1_integrity_mismatch ptextA ['x'] pA (fun _ => .ok ['x'])
    envMismatchEngine envMismatchOne 0 []
    (by decide) (by decide) rfl rfl rfl rfl rfl rfl rfl rfl rfl rfl
    (by decide)

/-- Counterexample to C1 as stated: under exactly the mismatch conditions
(cache miss, backend serving bytes that do not hash to the declared oid)
the one-shot adapter does not fail — it exits 0 and outputs the pointer
text, so the claimed "failure in the one-shot adapter" is false. -/
theorem claimC1_counterexample :
    oidOfBytes (['x'].map Char.toNat) ≠ pA.oid ∧
    cacheGet envMismatchOne.cache pA.sha256Hex = none ∧
    (smudgeOneShot envMismatchOne ptextA).exit = 0 ∧
    (smudgeOneShot envMismatchOne ptextA).out = ptextA := by
  decide

/-- Claim C9 evidence: `Cache::put` creates the destination file at its
final object path and only then writes the content into it, and
`Cache::put_file` copies straight onto the final path — no trace step of
either insert renames anything into place, and after the create step of
`put` the object path is already visible holding empty content different
from the blob being inserted, so visibility is not atomic. -/
theorem claimC9_put_not_atomic :
    ((putTrace cacheRootP hexA64 "hello".toList).all
       (fun op => !isRenameInto (objectPath cacheRootP hexA64) op)) = true ∧
    ((putFileTrace cacheRootP hexA64 "/tmp/scratch".toList).all
       (fun op => !isRenameInto (objectPath cacheRootP hexA64) op)) = true ∧
    fsLookup (fsRun [] ((putTrace cacheRootP hexA64 "hello".toList).take 2))
      (objectPath cacheRootP hexA64) = some [] ∧
    ([] : List Char) ≠ "hello".toList := by
  decide

end GitGud

